import Mathlib

/-!
Shallow embedding of the Candlecraft indicator computation engine
(`src/indicators/*.py`) over exact rationals.

Python floats are idealized as `ℚ`; Python's `round(x, d)` (round-half-to-even
at `d` decimal places) is modelled by `roundTo d`.  A Python value `None` is
modelled by `Option.none`.  A Python function that can raise an exception on
the inputs a claim quantifies over is modelled with an `Option` result
(`none` = exception); all other functions are total, matching the fact that
they raise on no input in the quantified range.
-/

namespace Candlecraft

/-- Nearest integer to `x`, ties to even (the rounding used by Python `round`). -/
def rInt (x : ℚ) : ℤ :=
  let f := ⌊x⌋
  let r := x - f
  if r < 1/2 then f
  else if 1/2 < r then f + 1
  else if f % 2 = 0 then f else f + 1

/-- Python `round(x, d)` on the rational idealization of floats. -/
def roundTo (d : Nat) (x : ℚ) : ℚ := (rInt (x * 10 ^ d) : ℚ) / 10 ^ d

def round2 (x : ℚ) : ℚ := roundTo 2 x

def round8 (x : ℚ) : ℚ := roundTo 8 x

/-- One OHLCV bar (`candlecraft/models.py`); `opn` is the bar's `open` field
(`open` is a Lean keyword).  Indicator math never reads `opn`. -/
structure Bar where
  opn : ℚ
  high : ℚ
  low : ℚ
  close : ℚ
  volume : Option ℚ
deriving DecidableEq, Repr

instance : Inhabited Bar := ⟨⟨1, 1, 1, 1, none⟩⟩

/-- The OHLCV ingestion invariants from the spec (§3): `high ≥ low`,
`high ≥ max(open, close)`, `low ≤ min(open, close)`, positive open/close,
non-negative volume when present. -/
def WellFormedBar (b : Bar) : Prop :=
  b.low ≤ b.high ∧ b.opn ≤ b.high ∧ b.close ≤ b.high ∧
  b.low ≤ b.opn ∧ b.low ≤ b.close ∧ 0 < b.opn ∧ 0 < b.close ∧
  0 ≤ b.volume.getD 0

instance (b : Bar) : Decidable (WellFormedBar b) := by
  unfold WellFormedBar; infer_instance

def closesOf (data : List Bar) : List ℚ := data.map (fun b => b.close)

/-- SMA (`src/indicators/sma.py`, `calculate`): windowed mean of closes,
rounded to 8 decimals at emission. -/
def sma_calculate (data : List Bar) (period : Nat) : List (Option ℚ) :=
  if data.length < period then data.map (fun _ => none)
  else
    let closes := closesOf data
    (List.range closes.length).map (fun i =>
      if i < period - 1 then none
      else some (round8 (((closes.drop (i + 1 - period)).take period).sum / period)))

/-- The EMA recurrence loop: successive values of
`v := (c - prev) * k + prev`, carried at full precision.  This is the body of
the `for` loop shared by `ema.py`, `atr.py` and the `ema` helper in `macd.py`. -/
def emaVals (k : ℚ) (prev : ℚ) : List ℚ → List ℚ
  | [] => []
  | c :: rest =>
    let v := (c - prev) * k + prev
    v :: emaVals k v rest

/-- The full-precision EMA series over `values`: SMA-of-first-`period` seed,
then the EMA recurrence over the remaining values. -/
def emaSeries (values : List ℚ) (period : Nat) : List ℚ :=
  let seed := (values.take period).sum / period
  seed :: emaVals (2 / ((period : ℚ) + 1)) seed (values.drop period)

/-- EMA (`src/indicators/ema.py`, `calculate`): each emitted value is rounded
to 8 decimals, while the carried `ema_prev` stays unrounded. -/
def ema_calculate (data : List Bar) (period : Nat) : List (Option ℚ) :=
  if data.length < period then data.map (fun _ => none)
  else
    List.replicate (period - 1) none ++
      (emaSeries (closesOf data) period).map (fun v => some (round8 v))

/-- `RSI = 100` when `avg_loss = 0`, else `100 - 100/(1 + avg_gain/avg_loss)`
(`rsi.py` lines 67-71 and 84-88). -/
def rsiOf (g l : ℚ) : ℚ := if l = 0 then 100 else 100 - 100 / (1 + g / l)

/-- Wilder-smoothing loop of `rsi.py` (lines 76-90): carries the unrounded
`avg_gain`/`avg_loss` pair and emits the RSI of each updated pair. -/
def rsiVals (p : ℚ) (g l : ℚ) : List ℚ → List ℚ
  | [] => []
  | ch :: rest =>
    let g' := (g * (p - 1) + max 0 ch) / p
    let l' := (l * (p - 1) + max 0 (-ch)) / p
    rsiOf g' l' :: rsiVals p g' l' rest

/-- RSI (`src/indicators/rsi.py`, `calculate`): seed averages over the first
`period` price changes, first value at index `period`, Wilder smoothing
afterwards; emissions rounded to 2 decimals. -/
def rsi_calculate (data : List Bar) (period : Nat) : List (Option ℚ) :=
  if data.length < period + 1 then data.map (fun _ => none)
  else
    let closes := closesOf data
    let changes := List.zipWith (fun a b => a - b) (closes.drop 1) closes
    let g0 := ((changes.take period).map (fun c => max 0 c)).sum / period
    let l0 := ((changes.take period).map (fun c => max 0 (-c))).sum / period
    List.replicate period none ++
      (rsiOf g0 l0 :: rsiVals period g0 l0 (changes.drop period)).map
        (fun v => some (round2 v))

/-- True ranges (`atr.py` lines 46-60, identically `adx.py` lines 55-66):
bar 0 is `high - low`, later bars `max(high-low, |high-prev_close|, |low-prev_close|)`. -/
def trueRanges : List Bar → List ℚ
  | [] => []
  | b :: rest =>
    (b.high - b.low) ::
      List.zipWith (fun cur prev =>
        max (cur.high - cur.low) (max |cur.high - prev.close| |cur.low - prev.close|))
        rest (b :: rest)

/-- ATR (`src/indicators/atr.py`, `calculate`): SMA-of-first-`period` true
ranges seeded at index `period - 1`, then the EMA recurrence with
`k = 2/(period+1)`; emissions rounded to 8 decimals. -/
def atr_calculate (data : List Bar) (period : Nat) : List (Option ℚ) :=
  if data.length < period + 1 then data.map (fun _ => none)
  else
    List.replicate (period - 1) none ++
      (emaSeries (trueRanges data) period).map (fun v => some (round8 v))

/-- Sample standard deviation (`statistics.stdev`): `none` models the
`StatisticsError` raised on fewer than two data points.  `sqrtQ` stands for
the square root taken at the end; every claim below is independent of it. -/
def sampleStdev (sqrtQ : ℚ → ℚ) (xs : List ℚ) : Option ℚ :=
  if xs.length < 2 then none
  else
    let m := xs.sum / xs.length
    some (sqrtQ ((xs.map (fun x => (x - m) ^ 2)).sum / ((xs.length : ℚ) - 1)))

/-- Sequence a list of optional values; `none` anywhere (an exception inside
the Python loop) makes the whole computation `none`. -/
def seqOpt : List (Option α) → Option (List α)
  | [] => some []
  | none :: _ => none
  | some x :: rest =>
    match seqOpt rest with
    | some xs => some (x :: xs)
    | none => none

structure BollRec where
  bb_upper : Option ℚ
  bb_middle : Option ℚ
  bb_lower : Option ℚ
deriving DecidableEq, Repr

/-- Bollinger Bands (`src/indicators/bollinger.py`, `calculate`).  The result
is `none` when the Python code would raise (`statistics.stdev` on a window of
fewer than two closes, i.e. `period = 1` with at least one bar). -/
def bollinger_calculate (sqrtQ : ℚ → ℚ) (data : List Bar) (period : Nat)
    (std_mult : ℚ) : Option (List BollRec) :=
  if data.length < period then some (data.map (fun _ => ⟨none, none, none⟩))
  else
    let closes := closesOf data
    seqOpt ((List.range closes.length).map (fun i =>
      if i < period - 1 then some ⟨none, none, none⟩
      else
        let window := (closes.drop (i + 1 - period)).take period
        let sma := window.sum / period
        (sampleStdev sqrtQ window).map (fun std =>
          ⟨some (round8 (sma + std_mult * std)), some (round8 sma),
            some (round8 (sma - std_mult * std))⟩)))

/-- The `ema` helper inside `macd.py` (lines 47-64): like `ema_calculate` on a
raw value list but with no rounding of emitted values. -/
def macdEma (values : List ℚ) (period : Nat) : List (Option ℚ) :=
  if values.length < period then List.replicate values.length none
  else List.replicate (period - 1) none ++ (emaSeries values period).map some

/-- Apply `g` when both operands are present, `None` otherwise — the shape of
every pairwise combination in `macd.py` and `adx.py`. -/
def optComb (g : ℚ → ℚ → ℚ) : Option ℚ → Option ℚ → Option ℚ
  | some x, some y => some (g x y)
  | _, _ => none

def optSub : Option ℚ → Option ℚ → Option ℚ := optComb (fun a b => a - b)

/-- `signal_ema_values[valid_idx - (signal_period - 1)]` when that index is in
range, else `None` (`macd.py` lines 94-98). -/
def sigLookup (sev : List (Option ℚ)) (sp : Nat) (vi : Nat) : Option ℚ :=
  let si : ℤ := (vi : ℤ) - ((sp : ℤ) - 1)
  if 0 ≤ si ∧ si < (sev.length : ℤ) then sev.getD si.toNat none else none

/-- The signal re-expansion loop of `macd.py` (lines 88-101): walks the MACD
line carrying `valid_idx`, doing the `sigLookup` index lookup at each
available MACD position. -/
def mapSignal (sev : List (Option ℚ)) (sp : Nat) :
    List (Option ℚ) → Nat → List (Option ℚ)
  | [], _ => []
  | none :: rest, vi => none :: mapSignal sev sp rest vi
  | some _ :: rest, vi =>
    sigLookup sev sp vi :: mapSignal sev sp rest (vi + 1)

structure MacdRec where
  macd : Option ℚ
  signal : Option ℚ
  histogram : Option ℚ
deriving DecidableEq, Repr

instance : Inhabited MacdRec := ⟨⟨none, none, none⟩⟩

/-- MACD (`src/indicators/macd.py`, `calculate`). -/
def macd_calculate (data : List Bar)
    (fast_period slow_period signal_period : Nat) : List MacdRec :=
  if data.length < slow_period + signal_period then
    data.map (fun _ => ⟨none, none, none⟩)
  else
    let closes := closesOf data
    let fast_ema := macdEma closes fast_period
    let slow_ema := macdEma closes slow_period
    let macd_line := List.zipWith optSub fast_ema slow_ema
    let valid_macd := macd_line.filterMap id
    let signal_line :=
      if valid_macd.length < signal_period then
        List.replicate macd_line.length none
      else mapSignal (macdEma valid_macd signal_period) signal_period macd_line 0
    List.zipWith (fun mv sv =>
      ⟨mv.map round8, sv.map round8,
        optComb (fun a b => round8 (a - b)) mv sv⟩) macd_line signal_line

def maxOf (f : Bar → ℚ) : List Bar → ℚ
  | [] => 0
  | b :: rest => rest.foldl (fun a x => max a (f x)) (f b)

def minOf (f : Bar → ℚ) : List Bar → ℚ
  | [] => 0
  | b :: rest => rest.foldl (fun a x => min a (f x)) (f b)

/-- The trailing `k`-bar window ending at index `i` (`stochastic.py` line 57). -/
def stochWindow (data : List Bar) (k i : Nat) : List Bar :=
  (data.drop (i + 1 - k)).take k

/-- Unrounded `%K` at index `i` (`stochastic.py` lines 59-67); 50 when the
window's high equals its low. -/
def stochKVal (data : List Bar) (k i : Nat) : ℚ :=
  let window := stochWindow data k i
  let hh := maxOf (fun b => b.high) window
  let ll := minOf (fun b => b.low) window
  if hh = ll then 50
  else ((data.getD i default).close - ll) / (hh - ll) * 100

/-- The contents of the Python accumulator `stoch_k_values` after the loop
iteration for index `i`: `None` below `k - 1`, the unrounded `%K` value at and
above it. -/
def stochKUpTo (data : List Bar) (k i : Nat) : List (Option ℚ) :=
  (List.range (i + 1)).map (fun j =>
    if j < k - 1 then none else some (stochKVal data k j))

structure StochRec where
  stoch_k : Option ℚ
  stoch_d : Option ℚ
deriving DecidableEq, Repr

instance : Inhabited StochRec := ⟨⟨none, none⟩⟩

/-- Stochastic Oscillator (`src/indicators/stochastic.py`, `calculate`).
`%D` is the mean of the last `d_period` entries of the `None`-filtered
accumulator, available once that filtered list has `d_period` entries. -/
def stochastic_calculate (data : List Bar) (k_period d_period : Nat) :
    List StochRec :=
  if data.length < k_period + d_period - 1 then data.map (fun _ => ⟨none, none⟩)
  else
    (List.range data.length).map (fun i =>
      if i < k_period - 1 then ⟨none, none⟩
      else
        let kv := stochKVal data k_period i
        let valid := (stochKUpTo data k_period i).filterMap id
        if valid.length < d_period then ⟨some (round2 kv), none⟩
        else
          ⟨some (round2 kv),
            some (round2 ((valid.drop (valid.length - d_period)).sum / d_period))⟩)

/-- `+DM` per bar (`adx.py` lines 68-75): 0 at bar 0. -/
def plusDMs : List Bar → List ℚ
  | [] => []
  | b :: rest =>
    0 :: List.zipWith (fun cur prev =>
      let up := cur.high - prev.high
      let down := prev.low - cur.low
      if up > down ∧ up > 0 then up else 0) rest (b :: rest)

/-- `-DM` per bar (`adx.py` lines 77-80): 0 at bar 0. -/
def minusDMs : List Bar → List ℚ
  | [] => []
  | b :: rest =>
    0 :: List.zipWith (fun cur prev =>
      let up := cur.high - prev.high
      let down := prev.low - cur.low
      if down > up ∧ down > 0 then down else 0) rest (b :: rest)

/-- Wilder smoothing loop (`adx.py` lines 100-104):
`new = (prev * (n-1) + current) / n`. -/
def wilderVals (p : ℚ) (prev : ℚ) : List ℚ → List ℚ
  | [] => []
  | x :: rest =>
    let v := (prev * (p - 1) + x) / p
    v :: wilderVals p v rest

/-- A Wilder-smoothed series (`adx.py` lines 86-104): `period - 1` leading
`None`s, the sum of the first `period` raw values as seed, then the smoothing
recurrence.  The three smoothed series of `adx.py` are built independently by
this function; the single Python loop interleaving them carries no shared
state. -/
def wilderSmooth (p : Nat) (xs : List ℚ) : List (Option ℚ) :=
  List.replicate (p - 1) none ++
    ((xs.take p).sum :: wilderVals p (xs.take p).sum (xs.drop p)).map some

structure AdxRec where
  adx : Option ℚ
  di_plus : Option ℚ
  di_minus : Option ℚ
deriving DecidableEq, Repr

instance : Inhabited AdxRec := ⟨⟨none, none, none⟩⟩

/-- The result loop of `adx.py` (lines 157-173): walks `dx`, `di_plus`,
`di_minus` in parallel from index `period` onward carrying `adx_prev`. -/
def adxLoop (mult : ℚ) (prev : ℚ) :
    List (Option ℚ) → List (Option ℚ) → List (Option ℚ) → List AdxRec
  | dx :: dxs, dip :: dips, dim :: dims =>
    match dx with
    | none =>
      ⟨none, dip.map round2, dim.map round2⟩ :: adxLoop mult prev dxs dips dims
    | some d =>
      let v := (d - prev) * mult + prev
      ⟨some (round2 v), dip.map round2, dim.map round2⟩ ::
        adxLoop mult v dxs dips dims
  | _, _, _ => []

/-- `DI` from a smoothed-TR and a smoothed-DM series (`adx.py` lines 110-119):
`None` below the warm-up, `0` when smoothed TR is `0`, else
`100 * smoothed_dm / smoothed_tr`. -/
def diSeries (str sdm : List (Option ℚ)) : List (Option ℚ) :=
  List.zipWith (optComb (fun s d => if s = 0 then 0 else d / s * 100)) str sdm

def adxDip (data : List Bar) (period : Nat) : List (Option ℚ) :=
  diSeries (wilderSmooth period (trueRanges data))
    (wilderSmooth period (plusDMs data))

def adxDim (data : List Bar) (period : Nat) : List (Option ℚ) :=
  diSeries (wilderSmooth period (trueRanges data))
    (wilderSmooth period (minusDMs data))

/-- `DX` from the two `DI` series (`adx.py` lines 122-132): `None` where `DI`
is undefined, `0` when `DI+ + DI- = 0`, else `100 * |DI+ - DI-| / (DI+ + DI-)`. -/
def dxSeries (dip dim : List (Option ℚ)) : List (Option ℚ) :=
  List.zipWith
    (optComb (fun a b => if a + b = 0 then 0 else |a - b| / (a + b) * 100))
    dip dim

def adxDx (data : List Bar) (period : Nat) : List (Option ℚ) :=
  dxSeries (adxDip data period) (adxDim data period)

/-- ADX (`src/indicators/adx.py`, `calculate`).  The seed record indexes
`di_plus_values[period-1]` directly (provably available there); its `round` is
modelled through `Option.map`. -/
def adx_calculate (data : List Bar) (period : Nat) : List AdxRec :=
  if data.length < period + 1 then data.map (fun _ => ⟨none, none, none⟩)
  else
    let dip := adxDip data period
    let dim := adxDim data period
    let dx := adxDx data period
    let firstWindow := ((dx.drop (period - 1)).take period).filterMap id
    if firstWindow.length < period then data.map (fun _ => ⟨none, none, none⟩)
    else
      let mult : ℚ := 2 / ((period : ℚ) + 1)
      let adx_sma := firstWindow.sum / period
      (List.replicate (period - 1) (⟨none, none, none⟩ : AdxRec)) ++
        ⟨some (round2 adx_sma), (dip.getD (period - 1) none).map round2,
          (dim.getD (period - 1) none).map round2⟩ ::
        adxLoop mult adx_sma (dx.drop period) (dip.drop period) (dim.drop period)

/-- The OBV loop from bar 1 onward (`obv.py` lines 45-65): carries the running
total and the immediately preceding bar; a missing-volume bar emits `None` and
leaves the total untouched. -/
def obvLoop (total : ℚ) (prev : Bar) : List Bar → List (Option ℚ)
  | [] => []
  | b :: rest =>
    match b.volume with
    | none => none :: obvLoop total b rest
    | some v =>
      let total' :=
        if prev.close < b.close then total + v
        else if b.close < prev.close then total - v
        else total
      some (round2 total') :: obvLoop total' b rest

/-- OBV (`src/indicators/obv.py`, `calculate`): the total starts at `0.0` and
is replaced by bar 0's volume only when that volume is present. -/
def obv_calculate : List Bar → List (Option ℚ)
  | [] => []
  | b :: rest =>
    match b.volume with
    | none => none :: obvLoop 0 b rest
    | some v => some (round2 v) :: obvLoop v b rest

/-- The VWAP loop (`vwap.py` lines 45-59): carries cumulative price·volume and
cumulative volume; bars with missing or zero volume emit `None` and do not
accumulate. -/
def vwapLoop (cpv cv : ℚ) : List Bar → List (Option ℚ)
  | [] => []
  | b :: rest =>
    match b.volume with
    | none => none :: vwapLoop cpv cv rest
    | some v =>
      if v = 0 then none :: vwapLoop cpv cv rest
      else
        let tp := (b.high + b.low + b.close) / 3
        let cpv' := cpv + tp * v
        let cv' := cv + v
        some (round8 (cpv' / cv')) :: vwapLoop cpv' cv' rest

/-- VWAP (`src/indicators/vwap.py`, `calculate`). -/
def vwap_calculate (data : List Bar) : List (Option ℚ) := vwapLoop 0 0 data

/-- Bars whose open, high, low and close all equal `c`, volume 1; used for
concrete inputs. -/
def constBars (cs : List ℚ) : List Bar := cs.map (fun c => ⟨c, c, c, c, some 1⟩)

/-- Once available, available at every later index (spec §8, monotone
availability). -/
def MonoAvail (l : List (Option α)) : Prop :=
  ∀ i j, i ≤ j → j < l.length →
    (l.getD i none).isSome = true → (l.getD j none).isSome = true

/-- Availability is exactly the indices from `a` on. -/
def ThresholdAvail (l : List (Option α)) (a : Nat) : Prop :=
  ∀ i, i < l.length → ((l.getD i none).isSome = true ↔ a ≤ i)

lemma ThresholdAvail.monoAvail {l : List (Option α)} {a : Nat}
    (h : ThresholdAvail l a) : MonoAvail l := by
  intro i j hij hj hi
  rcases Nat.lt_or_ge i l.length with hil | hil
  · exact (h j hj).mpr (le_trans ((h i hil).mp hi) hij)
  · rw [List.getD_eq_getElem?_getD, List.getElem?_eq_none (by omega)] at hi
    simp at hi

lemma map_const_none (l : List β) :
    l.map (fun _ => (none : Option α)) = List.replicate l.length none := by
  induction l with
  | nil => rfl
  | cons b t ih => simp [ih, List.replicate_succ]

lemma getD_replicate_none_append {a : Nat} {t : List (Option α)} {i : Nat} :
    (List.replicate a (none : Option α) ++ t).getD i none
      = if i < a then none else t.getD (i - a) none := by
  rw [List.getD_eq_getElem?_getD, List.getElem?_append, List.length_replicate]
  by_cases h : i < a
  · simp [h, List.getElem?_replicate]
  · simp [h, List.getD_eq_getElem?_getD]

lemma thresholdAvail_replicate (n : Nat) :
    ThresholdAvail (List.replicate n (none : Option α)) n := by
  intro i hi
  rw [List.length_replicate] at hi
  rw [List.getD_eq_getElem?_getD, List.getElem?_replicate]
  simp [hi, Nat.not_le_of_lt hi]

lemma thresholdAvail_shape (a : Nat) (xs : List α) :
    ThresholdAvail (List.replicate a (none : Option α) ++ xs.map some) a := by
  intro i hi
  rw [List.length_append, List.length_replicate, List.length_map] at hi
  rw [getD_replicate_none_append]
  by_cases h : i < a
  · simp [h, Nat.not_le_of_lt h]
  · have hxs : i - a < xs.length := by omega
    rw [if_neg h, List.getD_eq_getElem?_getD, List.getElem?_map,
      List.getElem?_eq_getElem hxs]
    simp; omega

lemma thresholdAvail_rangeMap (n a : Nat) (f : Nat → Option α)
    (hf : ∀ i, i < n → ((f i).isSome = true ↔ a ≤ i)) :
    ThresholdAvail ((List.range n).map f) a := by
  intro i hi
  rw [List.length_map, List.length_range] at hi
  rw [List.getD_eq_getElem?_getD, List.getElem?_map, List.getElem?_range hi]
  exact hf i hi

lemma thresholdAvail_zipWith {l1 : List (Option α)} {l2 : List (Option β)}
    {a b : Nat} (comb : Option α → Option β → Option γ)
    (hcomb : ∀ x y, (comb x y).isSome = (x.isSome && y.isSome))
    (h1 : ThresholdAvail l1 a) (h2 : ThresholdAvail l2 b) :
    ThresholdAvail (List.zipWith comb l1 l2) (max a b) := by
  intro i hi
  rw [List.length_zipWith] at hi
  have hi1 : i < l1.length := lt_of_lt_of_le hi (min_le_left _ _)
  have hi2 : i < l2.length := lt_of_lt_of_le hi (min_le_right _ _)
  rw [List.getD_eq_getElem?_getD, List.getElem?_zipWith,
    List.getElem?_eq_getElem hi1, List.getElem?_eq_getElem hi2]
  have e1 := h1 i hi1
  have e2 := h2 i hi2
  rw [List.getD_eq_getElem?_getD, List.getElem?_eq_getElem hi1] at e1
  rw [List.getD_eq_getElem?_getD, List.getElem?_eq_getElem hi2] at e2
  simp only [Option.getD_some] at e1 e2
  simp only [Option.getD_some, hcomb, Bool.and_eq_true, e1, e2,
    max_le_iff]

lemma getD_drop (l : List α) (n i : Nat) (d : α) :
    (l.drop n).getD i d = l.getD (n + i) d := by
  rw [List.getD_eq_getElem?_getD, List.getD_eq_getElem?_getD, List.getElem?_drop]

lemma emaVals_length (k prev : ℚ) (xs : List ℚ) :
    (emaVals k prev xs).length = xs.length := by
  induction xs generalizing prev with
  | nil => rfl
  | cons x t ih => simp [emaVals, ih]

lemma emaSeries_length (values : List ℚ) (p : Nat) :
    (emaSeries values p).length = values.length - p + 1 := by
  simp [emaSeries, emaVals_length]

/-- The EMA loop satisfies the EMA recurrence position by position. -/
lemma emaVals_getD_rec (k : ℚ) (ys : List ℚ) (prev : ℚ) (t : Nat)
    (ht : t < ys.length) :
    (prev :: emaVals k prev ys).getD (t + 1) 0
      = (ys.getD t 0 - (prev :: emaVals k prev ys).getD t 0) * k
        + (prev :: emaVals k prev ys).getD t 0 := by
  induction ys generalizing prev t with
  | nil => simp at ht
  | cons y ys' ih =>
    cases t with
    | zero => simp [emaVals]
    | succ s =>
      have hs : s < ys'.length := by simpa using ht
      simpa [emaVals] using ih ((y - prev) * k + prev) s hs

lemma closesOf_length (data : List Bar) :
    (closesOf data).length = data.length := List.length_map _ _

/-- C7: for a series of at least `period` bars, EMA seeds with the SMA of the
first `period` closes at index `period - 1`, then follows the recurrence
`ema[i] = (close[i] - ema[i-1]) * k + ema[i-1]` with `k = 2/(period+1)` on the
full-precision series, rounding to 8 decimals only at emission; earlier
indices are unavailable, and closes `[1,2,3,4,5]` with period 3 yield
`[unavailable, unavailable, 2.0, 3.0, 4.0]`. -/
theorem ema_spec_C7 (data : List Bar) (period : Nat) (hp : 1 ≤ period)
    (hlen : period ≤ data.length) :
    ema_calculate data period
        = List.replicate (period - 1) none
          ++ (emaSeries (closesOf data) period).map (fun v => some (round8 v))
      ∧ (emaSeries (closesOf data) period).getD 0 0
          = ((closesOf data).take period).sum / period
      ∧ (∀ t, t + 1 < (emaSeries (closesOf data) period).length →
          (emaSeries (closesOf data) period).getD (t + 1) 0
            = ((closesOf data).getD (period + t) 0
                - (emaSeries (closesOf data) period).getD t 0)
                * (2 / ((period : ℚ) + 1))
              + (emaSeries (closesOf data) period).getD t 0)
      ∧ (∀ i, i < period - 1 →
          (ema_calculate data period).getD i none = none)
      ∧ ema_calculate (constBars [1, 2, 3, 4, 5]) 3
          = [none, none, some 2, some 3, some 4] := by
  have hshape : ema_calculate data period
      = List.replicate (period - 1) none
        ++ (emaSeries (closesOf data) period).map (fun v => some (round8 v)) := by
    unfold ema_calculate
    rw [if_neg (by omega)]
  refine ⟨hshape, rfl, ?_, ?_, by
    norm_num [ema_calculate, constBars, closesOf, emaSeries, emaVals,
      round8, roundTo, rInt, List.replicate_succ]⟩
  · intro t ht
    rw [emaSeries_length, closesOf_length] at ht
    have hys : t < ((closesOf data).drop period).length := by
      rw [List.length_drop, closesOf_length]; omega
    have := emaVals_getD_rec (2 / ((period : ℚ) + 1)) ((closesOf data).drop period)
      (((closesOf data).take period).sum / period) t hys
    rw [getD_drop] at this
    exact this
  · intro i hi
    rw [hshape, getD_replicate_none_append, if_pos hi]

theorem ema_spec_C7_witness :
    ema_calculate (constBars [1, 2, 3, 4, 5]) 3
      = List.replicate 2 none
        ++ (emaSeries (closesOf (constBars [1, 2, 3, 4, 5])) 3).map
            (fun v => some (round8 v)) :=
  (ema_spec_C7 (constBars [1, 2, 3, 4, 5]) 3 (by norm_num)
    (by norm_num [constBars])).1

lemma trueRanges_length (data : List Bar) :
    (trueRanges data).length = data.length := by
  cases data with
  | nil => rfl
  | cons b rest => simp [trueRanges]

lemma rsiVals_length (p g l : ℚ) (xs : List ℚ) :
    (rsiVals p g l xs).length = xs.length := by
  induction xs generalizing g l with
  | nil => rfl
  | cons x t ih => simp [rsiVals, ih]

lemma wilderVals_length (p prev : ℚ) (xs : List ℚ) :
    (wilderVals p prev xs).length = xs.length := by
  induction xs generalizing prev with
  | nil => rfl
  | cons x t ih => simp [wilderVals, ih]

/-- C2 counterexample: with `period = 2` and a series of `period + 1 = 3`
bars, ATR's first available value appears at index `period - 1 = 1`, not at
index `period` as the claim states. -/
theorem rsi_atr_boundary_C2_counterexample :
    atr_calculate [⟨1, 2, 1, 1, some 1⟩, ⟨1, 2, 1, 1, some 1⟩,
        ⟨1, 2, 1, 1, some 1⟩] 2
      = [none, some 1, some 1] := by
  norm_num [atr_calculate, trueRanges, emaSeries, emaVals, round8, roundTo,
    rInt, List.replicate_succ]

/-- C2 (amended): for RSI and ATR with period `p`, a series of exactly `p`
bars gives an all-unavailable result; on a series of `p + 1` bars RSI's first
available value appears at index `p`, while ATR's appears at index `p - 1`
(its SMA seed is placed at index `period - 1`, `atr.py` lines 66-69). -/
theorem rsi_atr_boundary_C2 (p : Nat) (data1 data2 : List Bar) (hp : 1 ≤ p)
    (h1 : data1.length = p) (h2 : data2.length = p + 1) :
    rsi_calculate data1 p = List.replicate p none
    ∧ atr_calculate data1 p = List.replicate p none
    ∧ (rsi_calculate data2 p).take p = List.replicate p none
    ∧ ((rsi_calculate data2 p).getD p none).isSome = true
    ∧ (atr_calculate data2 p).take (p - 1) = List.replicate (p - 1) none
    ∧ ((atr_calculate data2 p).getD (p - 1) none).isSome = true
    ∧ ((atr_calculate data2 p).getD p none).isSome = true := by
  have hg1 : data1.length < p + 1 := by omega
  have hrsi2 : ∃ v rest, rsi_calculate data2 p
      = List.replicate p none ++ (v :: rest).map (fun x => some (round2 x)) := by
    unfold rsi_calculate
    rw [if_neg (by omega)]
    exact ⟨_, _, rfl⟩
  have hatr2 : atr_calculate data2 p
      = List.replicate (p - 1) none
        ++ (emaSeries (trueRanges data2) p).map (fun v => some (round8 v)) := by
    unfold atr_calculate
    rw [if_neg (by omega)]
  obtain ⟨v, rest, hrsi2⟩ := hrsi2
  refine ⟨?_, ?_, ?_, ?_, ?_, ?_, ?_⟩
  · unfold rsi_calculate
    rw [if_pos hg1, map_const_none, h1]
  · unfold atr_calculate
    rw [if_pos hg1, map_const_none, h1]
  · rw [hrsi2]
    exact List.take_left' (by simp)
  · rw [hrsi2, getD_replicate_none_append, if_neg (by omega), Nat.sub_self]
    simp
  · rw [hatr2]
    exact List.take_left' (by simp)
  · rw [hatr2, getD_replicate_none_append, if_neg (by omega), Nat.sub_self]
    simp [emaSeries]
  · rw [hatr2, getD_replicate_none_append, if_neg (by omega)]
    have hlen : (emaSeries (trueRanges data2) p).length = 2 := by
      rw [emaSeries_length, trueRanges_length, h2]; omega
    have hidx : p - (p - 1) = 1 := by omega
    rw [hidx, List.getD_eq_getElem?_getD, List.getElem?_map,
      List.getElem?_eq_getElem (by omega)]
    simp

theorem rsi_atr_boundary_C2_witness :
    rsi_calculate [⟨1, 2, 1, 1, some 1⟩, ⟨1, 2, 1, 1, some 1⟩] 2
        = List.replicate 2 none
    ∧ atr_calculate [⟨1, 2, 1, 1, some 1⟩, ⟨1, 2, 1, 1, some 1⟩] 2
        = List.replicate 2 none
    ∧ (rsi_calculate [⟨1, 2, 1, 1, some 1⟩, ⟨1, 2, 1, 1, some 1⟩,
        ⟨1, 2, 1, 1, some 1⟩] 2).take 2 = List.replicate 2 none
    ∧ ((rsi_calculate [⟨1, 2, 1, 1, some 1⟩, ⟨1, 2, 1, 1, some 1⟩,
        ⟨1, 2, 1, 1, some 1⟩] 2).getD 2 none).isSome = true
    ∧ (atr_calculate [⟨1, 2, 1, 1, some 1⟩, ⟨1, 2, 1, 1, some 1⟩,
        ⟨1, 2, 1, 1, some 1⟩] 2).take 1 = List.replicate 1 none
    ∧ ((atr_calculate [⟨1, 2, 1, 1, some 1⟩, ⟨1, 2, 1, 1, some 1⟩,
        ⟨1, 2, 1, 1, some 1⟩] 2).getD 1 none).isSome = true
    ∧ ((atr_calculate [⟨1, 2, 1, 1, some 1⟩, ⟨1, 2, 1, 1, some 1⟩,
        ⟨1, 2, 1, 1, some 1⟩] 2).getD 2 none).isSome = true :=
  rsi_atr_boundary_C2 2
    [⟨1, 2, 1, 1, some 1⟩, ⟨1, 2, 1, 1, some 1⟩]
    [⟨1, 2, 1, 1, some 1⟩, ⟨1, 2, 1, 1, some 1⟩, ⟨1, 2, 1, 1, some 1⟩]
    (by norm_num) (by norm_num) (by norm_num)

lemma obvLoop_skip (pre : List Bar) (q : Bar) (tail : List Bar)
    (hpre : ∀ x ∈ pre, x.volume = none) :
    obvLoop 0 q (pre ++ tail)
      = List.replicate pre.length none ++ obvLoop 0 (pre.getLastD q) tail := by
  induction pre generalizing q with
  | nil => rfl
  | cons x pre' ih =>
    have hx : x.volume = none := hpre x (by simp)
    have ih' := ih x (fun y hy => hpre y (by simp [hy]))
    rw [List.getLastD_cons, List.cons_append, List.length_cons,
      List.replicate_succ, List.cons_append]
    simp only [obvLoop, hx]
    rw [ih']

/-- C10: if bar 0 has missing volume, the OBV running total starts from 0: at
the first later bar `b` with volume `v` present (all bars in between also
missing volume), the emitted value is `+v`, `-v`, or `0` according to whether
`b`'s close rose above, fell below, or equals the previous bar's close
(rounded to 2 decimals at emission, `obv.py` line 65). -/
theorem obv_missing_seed_C10 (b0 : Bar) (pre : List Bar) (b : Bar)
    (rest : List Bar) (v : ℚ) (h0 : b0.volume = none)
    (hpre : ∀ x ∈ pre, x.volume = none) (hb : b.volume = some v) :
    (obv_calculate (b0 :: (pre ++ b :: rest))).getD (pre.length + 1) none
      = some (round2
          (if (pre.getLastD b0).close < b.close then v
           else if b.close < (pre.getLastD b0).close then -v else 0)) := by
  have hcalc : obv_calculate (b0 :: (pre ++ b :: rest))
      = none :: obvLoop 0 b0 (pre ++ b :: rest) := by
    simp [obv_calculate, h0]
  rw [hcalc, obvLoop_skip pre b0 (b :: rest) hpre]
  have : (none :: (List.replicate pre.length (none : Option ℚ)
      ++ obvLoop 0 (pre.getLastD b0) (b :: rest))).getD (pre.length + 1) none
      = (obvLoop 0 (pre.getLastD b0) (b :: rest)).getD 0 none := by
    show (List.replicate pre.length (none : Option ℚ)
      ++ obvLoop 0 (pre.getLastD b0) (b :: rest)).getD pre.length none = _
    rw [getD_replicate_none_append, if_neg (by omega), Nat.sub_self]
  rw [this]
  simp only [obvLoop, hb]
  split_ifs <;> simp [zero_add, zero_sub]

theorem obv_missing_seed_C10_witness :
    (obv_calculate [⟨1, 1, 1, 1, none⟩, ⟨1, 1, 1, 2, none⟩,
        ⟨1, 1, 1, 3, some 5⟩]).getD 2 none = some 5 := by
  have h := obv_missing_seed_C10 ⟨1, 1, 1, 1, none⟩ [⟨1, 1, 1, 2, none⟩]
    ⟨1, 1, 1, 3, some 5⟩ [] 5 rfl (by intro x hx; simp at hx; rw [hx]) rfl
  norm_num [List.getLastD, round2, roundTo, rInt] at h
  exact h

lemma le_rInt (x : ℚ) : ⌊x⌋ ≤ rInt x := by
  simp only [rInt]
  split_ifs <;> omega

lemma rInt_le_ceil (x : ℚ) : rInt x ≤ ⌈x⌉ := by
  have hfc : ⌊x⌋ ≤ ⌈x⌉ := Int.floor_le_ceil x
  have hlt : ¬(x - ⌊x⌋ < 1/2) → ⌊x⌋ + 1 ≤ ⌈x⌉ := by
    intro h
    rw [Int.add_one_le_iff, Int.lt_ceil]
    have : (0 : ℚ) < x - ⌊x⌋ := by
      by_contra hc
      exact h (by push_neg at hc; linarith)
    linarith
  simp only [rInt]
  split_ifs with h1 h2 h3
  · exact hfc
  · exact hlt h1
  · exact hfc
  · exact hlt h1

lemma roundTo_nonneg (d : Nat) {x : ℚ} (h0 : 0 ≤ x) : 0 ≤ roundTo d x := by
  have hy0 : (0 : ℚ) ≤ x * 10 ^ d := by positivity
  have hlo : (0 : ℤ) ≤ rInt (x * 10 ^ d) :=
    le_trans (Int.le_floor.mpr (by exact_mod_cast hy0)) (le_rInt _)
  unfold roundTo
  apply div_nonneg _ (by positivity)
  exact_mod_cast hlo

lemma roundTo_le_natCast (d m : Nat) {x : ℚ} (h : x ≤ m) :
    roundTo d x ≤ m := by
  have hpow : (0 : ℚ) < 10 ^ d := by positivity
  have hc : ⌈x * 10 ^ d⌉ ≤ ((m : ℤ) * 10 ^ d) := by
    apply Int.ceil_le.mpr
    push_cast
    exact mul_le_mul_of_nonneg_right h (le_of_lt hpow)
  have h2 : (rInt (x * 10 ^ d) : ℚ) ≤ (m : ℚ) * 10 ^ d := by
    have := le_trans (rInt_le_ceil (x * 10 ^ d)) hc
    exact_mod_cast this
  unfold roundTo
  rw [div_le_iff₀ hpow]
  exact h2

lemma rsiOf_bounds (g l : ℚ) (hg : 0 ≤ g) (hl : 0 ≤ l) :
    0 ≤ rsiOf g l ∧ rsiOf g l ≤ 100 := by
  unfold rsiOf
  split_ifs with h
  · norm_num
  · have hlpos : 0 < l := lt_of_le_of_ne hl (Ne.symm h)
    have hrs : 0 ≤ g / l := div_nonneg hg hl
    have hpos : 0 < 1 + g / l := by linarith
    constructor
    · have hle : 100 / (1 + g / l) ≤ 100 := by
        rw [div_le_iff₀ hpos]; nlinarith
      linarith
    · have hgt : 0 < 100 / (1 + g / l) := by positivity
      linarith

lemma rsiVals_bounds (p : ℚ) (hp : 1 ≤ p) (cs : List ℚ) :
    ∀ (g l : ℚ), 0 ≤ g → 0 ≤ l → ∀ x ∈ rsiVals p g l cs, 0 ≤ x ∧ x ≤ 100 := by
  induction cs with
  | nil => intro g l hg hl x hx; simp [rsiVals] at hx
  | cons c rest ih =>
    intro g l hg hl x hx
    have hppos : (0 : ℚ) < p := by linarith
    have hg' : 0 ≤ (g * (p - 1) + max 0 c) / p :=
      div_nonneg (by nlinarith [le_max_left (0 : ℚ) c]) (le_of_lt hppos)
    have hl' : 0 ≤ (l * (p - 1) + max 0 (-c)) / p :=
      div_nonneg (by nlinarith [le_max_left (0 : ℚ) (-c)]) (le_of_lt hppos)
    simp only [rsiVals, List.mem_cons] at hx
    rcases hx with rfl | hx
    · exact rsiOf_bounds _ _ hg' hl'
    · exact ih _ _ hg' hl' x hx

lemma sum_map_max_nonneg (ys : List ℚ) (f : ℚ → ℚ) :
    0 ≤ (ys.map (fun c => max 0 (f c))).sum := by
  apply List.sum_nonneg
  intro y hy
  obtain ⟨c, _, rfl⟩ := List.mem_map.mp hy
  exact le_max_left 0 (f c)

/-- C8: every available RSI value lies in `[0, 100]`: the Wilder-smoothed
`avg_gain`/`avg_loss` stay non-negative through every iteration, so
`100 - 100/(1 + avg_gain/avg_loss)` (or the fallback 100 when `avg_loss = 0`)
stays in the interval, as does its rounding to 2 decimals. -/
theorem rsi_bounds_C8 (data : List Bar) (period : Nat) (hp : 1 ≤ period) :
    ∀ o ∈ rsi_calculate data period, ∀ v, o = some v → 0 ≤ v ∧ v ≤ 100 := by
  intro o ho v hv
  subst hv
  simp only [rsi_calculate] at ho
  split_ifs at ho with h
  · rw [map_const_none] at ho
    exact absurd (List.eq_of_mem_replicate ho) (by simp)
  · rcases List.mem_append.mp ho with h1 | h2
    · exact absurd (List.eq_of_mem_replicate h1) (by simp)
    · obtain ⟨x, hx, hxe⟩ := List.mem_map.mp h2
      have hvx : round2 x = v := by injection hxe
      subst hvx
      have hpq : (1 : ℚ) ≤ (period : ℚ) := by exact_mod_cast hp
      have hper0 : (0 : ℚ) ≤ (period : ℚ) := by linarith
      have hg0 : 0 ≤ (((List.zipWith (fun a b => a - b)
          ((closesOf data).drop 1) (closesOf data)).take period).map
            (fun c => max 0 c)).sum / (period : ℚ) := by
        apply div_nonneg _ hper0
        exact sum_map_max_nonneg _ (fun c => c)
      have hl0 : 0 ≤ (((List.zipWith (fun a b => a - b)
          ((closesOf data).drop 1) (closesOf data)).take period).map
            (fun c => max 0 (-c))).sum / (period : ℚ) := by
        apply div_nonneg _ hper0
        exact sum_map_max_nonneg _ (fun c => -c)
      have hxb : 0 ≤ x ∧ x ≤ 100 := by
        rcases List.mem_cons.mp hx with rfl | htail
        · exact rsiOf_bounds _ _ hg0 hl0
        · exact rsiVals_bounds (period : ℚ) hpq _ _ _ hg0 hl0 x htail
      refine ⟨roundTo_nonneg 2 hxb.1, ?_⟩
      have h100 := roundTo_le_natCast 2 100 (x := x) (by exact_mod_cast hxb.2)
      exact_mod_cast h100

theorem rsi_bounds_C8_witness : (0 : ℚ) ≤ 100 ∧ (100 : ℚ) ≤ 100 := by
  have hl : rsi_calculate (constBars [1, 2]) 1 = [none, some 100] := by
    norm_num [rsi_calculate, constBars, closesOf, rsiVals, rsiOf, round2,
      roundTo, rInt, List.replicate_succ]
  have h := rsi_bounds_C8 (constBars [1, 2]) 1 (le_refl 1) (some 100)
    (by rw [hl]; simp) 100 rfl
  exact h

lemma map_constant (l : List β) (c : α) :
    l.map (fun _ => c) = List.replicate l.length c := by
  induction l with
  | nil => rfl
  | cons b t ih => simp [ih, List.replicate_succ]

lemma plusDMs_length (data : List Bar) : (plusDMs data).length = data.length := by
  cases data with
  | nil => rfl
  | cons b rest => simp [plusDMs]

lemma minusDMs_length (data : List Bar) :
    (minusDMs data).length = data.length := by
  cases data with
  | nil => rfl
  | cons b rest => simp [minusDMs]

lemma wilderSmooth_length (p : Nat) (xs : List ℚ) (hp : 1 ≤ p)
    (hlen : p ≤ xs.length) : (wilderSmooth p xs).length = xs.length := by
  simp [wilderSmooth, wilderVals_length]
  omega

lemma diSeries_length (str sdm : List (Option ℚ)) :
    (diSeries str sdm).length = min str.length sdm.length := by
  simp [diSeries]

lemma dxSeries_length (dip dim : List (Option ℚ)) :
    (dxSeries dip dim).length = min dip.length dim.length := by
  simp [dxSeries]

lemma adxDip_length (data : List Bar) (p : Nat) (hp : 1 ≤ p)
    (hlen : p ≤ data.length) : (adxDip data p).length = data.length := by
  rw [adxDip, diSeries_length,
    wilderSmooth_length p _ hp (by rw [trueRanges_length]; exact hlen),
    wilderSmooth_length p _ hp (by rw [plusDMs_length]; exact hlen),
    trueRanges_length, plusDMs_length, min_self]

lemma adxDim_length (data : List Bar) (p : Nat) (hp : 1 ≤ p)
    (hlen : p ≤ data.length) : (adxDim data p).length = data.length := by
  rw [adxDim, diSeries_length,
    wilderSmooth_length p _ hp (by rw [trueRanges_length]; exact hlen),
    wilderSmooth_length p _ hp (by rw [minusDMs_length]; exact hlen),
    trueRanges_length, minusDMs_length, min_self]

lemma adxDx_length (data : List Bar) (p : Nat) (hp : 1 ≤ p)
    (hlen : p ≤ data.length) : (adxDx data p).length = data.length := by
  rw [adxDx, dxSeries_length, adxDip_length data p hp hlen,
    adxDim_length data p hp hlen, min_self]

/-- C9: for `period ≥ 3` and a series of `n` bars with
`period + 1 ≤ n ≤ 2*period - 2`, ADX returns all three fields unavailable at
every index: the seed window starting at index `period - 1` cannot contain
`period` defined DX values. -/
theorem adx_min_length_C9 (data : List Bar) (p : Nat) (hp : 3 ≤ p)
    (hlow : p + 1 ≤ data.length) (hhigh : data.length ≤ 2 * p - 2) :
    adx_calculate data p = List.replicate data.length ⟨none, none, none⟩ := by
  have hp1 : 1 ≤ p := by omega
  have hdxlen : (adxDx data p).length = data.length :=
    adxDx_length data p hp1 (by omega)
  have hwin : ((((adxDx data p).drop (p - 1)).take p).filterMap id).length
      < p := by
    calc ((((adxDx data p).drop (p - 1)).take p).filterMap id).length
        ≤ (((adxDx data p).drop (p - 1)).take p).length :=
          List.length_filterMap_le _ _
      _ ≤ ((adxDx data p).drop (p - 1)).length := by
          rw [List.length_take]; exact min_le_right _ _
      _ = data.length - (p - 1) := by rw [List.length_drop, hdxlen]
      _ < p := by omega
  simp only [adx_calculate]
  rw [if_neg (by omega), if_pos hwin, map_constant]

theorem adx_min_length_C9_witness :
    adx_calculate (constBars [1, 2, 3, 4]) 3
      = List.replicate (constBars [1, 2, 3, 4]).length ⟨none, none, none⟩ :=
  adx_min_length_C9 (constBars [1, 2, 3, 4]) 3 (le_refl 3)
    (by norm_num [constBars]) (by norm_num [constBars])

lemma seqOpt_isSome_of_forall (l : List (Option α))
    (h : ∀ o ∈ l, o.isSome = true) : (seqOpt l).isSome = true := by
  induction l with
  | nil => rfl
  | cons o rest ih =>
    have ho := h o (by simp)
    have hrest := ih (fun x hx => h x (by simp [hx]))
    obtain ⟨x, hx⟩ := Option.isSome_iff_exists.mp ho
    obtain ⟨xs, hxs⟩ := Option.isSome_iff_exists.mp hrest
    subst hx
    simp [seqOpt, hxs]

/-- C4 counterexample: Bollinger Bands with the well-formed single bar
`(open = high = low = close = 1, volume 1)` and the positive parameters
`period = 1`, `multiplier = 2` raises (`statistics.stdev` on a one-element
window), modelled by the `none` result; so "never raises on well-formed input
with positive parameters" fails. -/
theorem no_raise_C4_counterexample :
    WellFormedBar ⟨1, 1, 1, 1, some 1⟩
    ∧ bollinger_calculate id [⟨1, 1, 1, 1, some 1⟩] 1 2 = none := by
  constructor
  · refine ⟨le_refl 1, le_refl 1, le_refl 1, le_refl 1, le_refl 1,
      one_pos, one_pos, ?_⟩
    norm_num
  · norm_num [bollinger_calculate, closesOf, seqOpt, sampleStdev,
      List.range_succ]

/-- C4 (amended): on insufficient data every indicator returns an
all-unavailable result of the input's length rather than failing, and no
indicator raises for positive periods except Bollinger Bands, which requires
`period ≥ 2` (its sample standard deviation needs a two-element window;
`period = 1` raises `StatisticsError`). -/
theorem no_raise_C4 (sqrtQ : ℚ → ℚ) (data : List Bar)
    (p f s sp k d : Nat) (mult : ℚ) :
    (data.length < p → sma_calculate data p = List.replicate data.length none)
    ∧ (data.length < p →
        ema_calculate data p = List.replicate data.length none)
    ∧ (data.length < p + 1 →
        rsi_calculate data p = List.replicate data.length none)
    ∧ (data.length < p + 1 →
        atr_calculate data p = List.replicate data.length none)
    ∧ (data.length < p + 1 →
        adx_calculate data p = List.replicate data.length ⟨none, none, none⟩)
    ∧ (data.length < s + sp →
        macd_calculate data f s sp
          = List.replicate data.length ⟨none, none, none⟩)
    ∧ (data.length < k + d - 1 →
        stochastic_calculate data k d
          = List.replicate data.length ⟨none, none⟩)
    ∧ (data.length < p →
        bollinger_calculate sqrtQ data p mult
          = some (List.replicate data.length ⟨none, none, none⟩))
    ∧ (2 ≤ p → (bollinger_calculate sqrtQ data p mult).isSome = true) := by
  refine ⟨?_, ?_, ?_, ?_, ?_, ?_, ?_, ?_, ?_⟩
  · intro h; simp only [sma_calculate]; rw [if_pos h, map_constant]
  · intro h; simp only [ema_calculate]; rw [if_pos h, map_constant]
  · intro h; simp only [rsi_calculate]; rw [if_pos h, map_constant]
  · intro h; simp only [atr_calculate]; rw [if_pos h, map_constant]
  · intro h; simp only [adx_calculate]; rw [if_pos h, map_constant]
  · intro h; simp only [macd_calculate]; rw [if_pos h, map_constant]
  · intro h; simp only [stochastic_calculate]; rw [if_pos h, map_constant]
  · intro h; simp only [bollinger_calculate]; rw [if_pos h, map_constant]
  · intro hp2
    by_cases h : data.length < p
    · simp only [bollinger_calculate]
      rw [if_pos h]
      rfl
    · simp only [bollinger_calculate]
      rw [if_neg h]
      apply seqOpt_isSome_of_forall
      intro o ho
      obtain ⟨i, hi, rfl⟩ := List.mem_map.mp ho
      rw [List.mem_range, closesOf_length] at hi
      by_cases hip : i < p - 1
      · rw [if_pos hip]; rfl
      · rw [if_neg hip]
        have hwin : (((closesOf data).drop (i + 1 - p)).take p).length = p := by
          rw [List.length_take, List.length_drop, closesOf_length]
          omega
        simp only [sampleStdev, hwin]
        rw [if_neg (by omega)]
        rfl

theorem no_raise_C4_witness :
    sma_calculate [] 2 = List.replicate (List.length ([] : List Bar)) none
    ∧ (bollinger_calculate id [] 2 2).isSome = true := by
  have h := no_raise_C4 id [] 2 1 1 1 1 1 2
  exact ⟨h.1 (by norm_num), h.2.2.2.2.2.2.2.2 (le_refl 2)⟩

lemma sma_length (data : List Bar) (p : Nat) :
    (sma_calculate data p).length = data.length := by
  simp only [sma_calculate]
  split_ifs with h
  · rw [map_constant, List.length_replicate]
  · simp [closesOf_length]

lemma ema_length (data : List Bar) (p : Nat) (hp : 1 ≤ p) :
    (ema_calculate data p).length = data.length := by
  simp only [ema_calculate]
  split_ifs with h
  · rw [map_constant, List.length_replicate]
  · rw [List.length_append, List.length_replicate, List.length_map,
      emaSeries_length, closesOf_length]
    omega

lemma changes_length (data : List Bar) :
    (List.zipWith (fun a b => a - b) ((closesOf data).drop 1)
      (closesOf data)).length = data.length - 1 := by
  rw [List.length_zipWith, List.length_drop, closesOf_length]
  omega

lemma rsi_length (data : List Bar) (p : Nat) :
    (rsi_calculate data p).length = data.length := by
  simp only [rsi_calculate]
  split_ifs with h
  · rw [map_constant, List.length_replicate]
  · rw [List.length_append, List.length_replicate, List.length_map,
      List.length_cons, rsiVals_length, List.length_drop, changes_length]
    omega

lemma atr_length (data : List Bar) (p : Nat) (hp : 1 ≤ p) :
    (atr_calculate data p).length = data.length := by
  simp only [atr_calculate]
  split_ifs with h
  · rw [map_constant, List.length_replicate]
  · rw [List.length_append, List.length_replicate, List.length_map,
      emaSeries_length, trueRanges_length]
    omega

lemma macdEma_length (values : List ℚ) (p : Nat) (hp : 1 ≤ p) :
    (macdEma values p).length = values.length := by
  simp only [macdEma]
  split_ifs with h
  · rw [List.length_replicate]
  · rw [List.length_append, List.length_replicate, List.length_map,
      emaSeries_length]
    omega

lemma mapSignal_length (sev : List (Option ℚ)) (sp : Nat)
    (l : List (Option ℚ)) (vi : Nat) :
    (mapSignal sev sp l vi).length = l.length := by
  induction l generalizing vi with
  | nil => rfl
  | cons o rest ih =>
    cases o with
    | none => simp [mapSignal, ih]
    | some x => simp [mapSignal, ih]

lemma macd_length (data : List Bar) (f s sp : Nat) (hf : 1 ≤ f) (hs : 1 ≤ s)
    (hsp : 1 ≤ sp) : (macd_calculate data f s sp).length = data.length := by
  simp only [macd_calculate]
  split_ifs with h h2
  · rw [map_constant, List.length_replicate]
  · rw [List.length_zipWith, List.length_replicate, List.length_zipWith,
      macdEma_length _ _ hf, macdEma_length _ _ hs, closesOf_length]
    omega
  · rw [List.length_zipWith, mapSignal_length, List.length_zipWith,
      macdEma_length _ _ hf, macdEma_length _ _ hs, closesOf_length]
    omega

lemma stochastic_length (data : List Bar) (k d : Nat) :
    (stochastic_calculate data k d).length = data.length := by
  simp only [stochastic_calculate]
  split_ifs with h
  · rw [map_constant, List.length_replicate]
  · simp

lemma adxLoop_length (mult prev : ℚ) (dxs dips dims : List (Option ℚ)) :
    (adxLoop mult prev dxs dips dims).length
      = min dxs.length (min dips.length dims.length) := by
  induction dxs generalizing prev dips dims with
  | nil => simp [adxLoop]
  | cons dx dxs ih =>
    cases dips with
    | nil => simp [adxLoop]
    | cons dip dips =>
      cases dims with
      | nil => simp [adxLoop]
      | cons dim dims =>
        cases dx with
        | none => simp [adxLoop, ih]; omega
        | some v => simp [adxLoop, ih]; omega

lemma adx_length (data : List Bar) (p : Nat) (hp : 1 ≤ p) :
    (adx_calculate data p).length = data.length := by
  simp only [adx_calculate]
  split_ifs with h h2
  · rw [map_constant, List.length_replicate]
  · rw [map_constant, List.length_replicate]
  · rw [List.length_append, List.length_replicate, List.length_cons,
      adxLoop_length]
    rw [List.length_drop, List.length_drop, List.length_drop,
      adxDx_length data p hp (by omega), adxDip_length data p hp (by omega),
      adxDim_length data p hp (by omega)]
    omega

lemma obvLoop_length (total : ℚ) (prev : Bar) (bars : List Bar) :
    (obvLoop total prev bars).length = bars.length := by
  induction bars generalizing total prev with
  | nil => rfl
  | cons b rest ih =>
    cases hb : b.volume with
    | none => simp [obvLoop, hb, ih]
    | some v => simp [obvLoop, hb, ih]

lemma obv_length (data : List Bar) :
    (obv_calculate data).length = data.length := by
  cases data with
  | nil => rfl
  | cons b rest =>
    cases hb : b.volume with
    | none => simp [obv_calculate, hb, obvLoop_length]
    | some v => simp [obv_calculate, hb, obvLoop_length]

lemma vwapLoop_length (cpv cv : ℚ) (bars : List Bar) :
    (vwapLoop cpv cv bars).length = bars.length := by
  induction bars generalizing cpv cv with
  | nil => rfl
  | cons b rest ih =>
    cases hb : b.volume with
    | none => simp [vwapLoop, hb, ih]
    | some v =>
      by_cases hv : v = 0
      · simp [vwapLoop, hb, hv, ih]
      · simp [vwapLoop, hb, hv, ih]

lemma vwap_length (data : List Bar) :
    (vwap_calculate data).length = data.length := vwapLoop_length 0 0 data

lemma seqOpt_length (l : List (Option α)) (ys : List α)
    (h : seqOpt l = some ys) : ys.length = l.length := by
  induction l generalizing ys with
  | nil => simp [seqOpt] at h; simp [h.symm]
  | cons o rest ih =>
    cases o with
    | none => simp [seqOpt] at h
    | some x =>
      simp only [seqOpt] at h
      cases hrest : seqOpt rest with
      | none => rw [hrest] at h; simp at h
      | some xs =>
        rw [hrest] at h
        simp at h
        rw [h.symm]
        simp [ih xs hrest]

/-- C5: every one of the ten indicators returns exactly one record per input
bar (with positive periods; for Bollinger Bands, whenever the computation
does not raise). -/
theorem length_invariant_C5 (sqrtQ : ℚ → ℚ) (data : List Bar)
    (p f s sp k d : Nat) (mult : ℚ) (hp : 1 ≤ p) (hf : 1 ≤ f) (hs : 1 ≤ s)
    (hsp : 1 ≤ sp) :
    (sma_calculate data p).length = data.length
    ∧ (ema_calculate data p).length = data.length
    ∧ (rsi_calculate data p).length = data.length
    ∧ (atr_calculate data p).length = data.length
    ∧ (macd_calculate data f s sp).length = data.length
    ∧ (stochastic_calculate data k d).length = data.length
    ∧ (adx_calculate data p).length = data.length
    ∧ (∀ r, bollinger_calculate sqrtQ data p mult = some r →
        r.length = data.length)
    ∧ (obv_calculate data).length = data.length
    ∧ (vwap_calculate data).length = data.length := by
  refine ⟨sma_length data p, ema_length data p hp, rsi_length data p,
    atr_length data p hp, macd_length data f s sp hf hs hsp,
    stochastic_length data k d, adx_length data p hp, ?_,
    obv_length data, vwap_length data⟩
  intro r hr
  simp only [bollinger_calculate] at hr
  split_ifs at hr with h
  · injection hr with hr
    rw [hr.symm, map_constant, List.length_replicate]
  · have := seqOpt_length _ _ hr
    rw [this, List.length_map, List.length_range, closesOf_length]

theorem length_invariant_C5_witness :
    (sma_calculate (constBars [1]) 2).length = (constBars [1]).length
    ∧ ([(⟨none, none, none⟩ : BollRec)]).length = (constBars [1]).length := by
  have h := length_invariant_C5 id (constBars [1]) 2 1 1 1 1 1 2
    (by norm_num) (le_refl 1) (le_refl 1) (le_refl 1)
  refine ⟨h.1, ?_⟩
  apply h.2.2.2.2.2.2.2.1 [⟨none, none, none⟩]
  norm_num [bollinger_calculate, constBars]

/-- C1 (code bug, evaluated at the failing input): closes `[1,2,3,4,5,6]`
with `fast = 2`, `slow = 3`, `signal = 3`, so `n = slow + signal`.  The MACD
line is available from index `slow - 1 = 2` onward (constant `1/2`), and the
EMA of the compacted MACD values has its seed at compacted position
`signal - 1 = 2`, so per the claim the signal should be `1/2` at original
index `slow + signal - 2 = 4`.  The code instead emits `None` at every index:
`signal_idx = valid_idx - (signal_period - 1)` (`macd.py` line 94) subtracts
the offset a second time even though the `ema` helper's output already
carries the `None` prefix, pushing the first signal to compacted position
`2*(signal-1)`, which lies beyond this series. -/
theorem macd_signal_C1 :
    (macd_calculate (constBars [1, 2, 3, 4, 5, 6]) 2 3 3).map
        (fun r => r.macd)
      = [none, none, some (1/2), some (1/2), some (1/2), some (1/2)]
    ∧ (macd_calculate (constBars [1, 2, 3, 4, 5, 6]) 2 3 3).map
        (fun r => r.signal)
      = [none, none, none, none, none, none]
    ∧ macdEma ((List.zipWith optSub
          (macdEma (closesOf (constBars [1, 2, 3, 4, 5, 6])) 2)
          (macdEma (closesOf (constBars [1, 2, 3, 4, 5, 6])) 3)).filterMap id) 3
      = [none, none, some (1/2), some (1/2)] := by
  refine ⟨?_, ?_, ?_⟩ <;>
    norm_num [macd_calculate, macdEma, emaSeries, emaVals, mapSignal, optSub,
      optComb, sigLookup, constBars, closesOf, round8, roundTo, rInt,
      List.replicate_succ, List.range_succ, List.filterMap_cons]


lemma stochKVal_eq_formula (data : List Bar) (k i : Nat) :
    stochKVal data k i
      = (if maxOf (fun b => b.high) (stochWindow data k i)
            = minOf (fun b => b.low) (stochWindow data k i) then (50 : ℚ)
         else 100 * ((data.getD i default).close
              - minOf (fun b => b.low) (stochWindow data k i))
            / (maxOf (fun b => b.high) (stochWindow data k i)
              - minOf (fun b => b.low) (stochWindow data k i))) := by
  simp only [stochKVal]
  split_ifs with h
  · rfl
  · ring

/-- C3 counterexample: `k_period = 2`, `d_period = 3`, and a series of 2 bars.
The claim says `stoch_k` is available at every `i ≥ k_period - 1 = 1`, but the
guard `len < k_period + d_period - 1` (`stochastic.py` line 43) returns the
all-unavailable list, so `stoch_k` at index 1 is `None`. -/
theorem stoch_k_C3_counterexample :
    (stochastic_calculate [⟨1, 2, 1, 2, some 1⟩, ⟨1, 2, 1, 2, some 1⟩] 2 3).get? 1
      = some ⟨none, none⟩ := by
  norm_num [stochastic_calculate, List.replicate_succ]

/-- C3 (amended): provided `len(series) ≥ k_period + d_period - 1` (the
short-circuit guard at `stochastic.py` line 43), `stoch_k` at index `i` is
available exactly for `i ≥ k_period - 1` and equals
`100*(close[i]-lowestLow)/(highestHigh-lowestLow)` over the trailing
`k_period`-bar window (50 when the range is zero), rounded to 2 decimals. -/
theorem stoch_k_C3 (data : List Bar) (k d : Nat) (hk : 1 ≤ k)
    (hlen : k + d - 1 ≤ data.length) (i : Nat) (hi : i < data.length) :
    (k - 1 ≤ i →
      ((stochastic_calculate data k d).getD i ⟨none, none⟩).stoch_k
        = some (round2
            (if maxOf (fun b => b.high) (stochWindow data k i)
                = minOf (fun b => b.low) (stochWindow data k i) then 50
             else 100 * ((data.getD i default).close
                  - minOf (fun b => b.low) (stochWindow data k i))
                / (maxOf (fun b => b.high) (stochWindow data k i)
                  - minOf (fun b => b.low) (stochWindow data k i)))))
    ∧ (i < k - 1 →
      ((stochastic_calculate data k d).getD i ⟨none, none⟩).stoch_k = none) := by
  have hrec : (stochastic_calculate data k d).getD i ⟨none, none⟩
      = if i < k - 1 then ⟨none, none⟩
        else if ((stochKUpTo data k i).filterMap id).length < d then
          (⟨some (round2 (stochKVal data k i)), none⟩ : StochRec)
        else
          ⟨some (round2 (stochKVal data k i)),
            some (round2 ((((stochKUpTo data k i).filterMap id).drop
              (((stochKUpTo data k i).filterMap id).length - d)).sum / d))⟩ := by
    simp only [stochastic_calculate]
    rw [if_neg (by omega), List.getD_eq_getElem?_getD, List.getElem?_map,
      List.getElem?_range hi]
    rfl
  constructor
  · intro hki
    rw [hrec, if_neg (by omega), ← stochKVal_eq_formula]
    split_ifs <;> rfl
  · intro hki
    rw [hrec, if_pos hki]

theorem stoch_k_C3_witness :
    ((stochastic_calculate [⟨1, 2, 1, 2, some 1⟩, ⟨1, 3, 1, 2, some 1⟩,
        ⟨1, 3, 1, 3, some 1⟩] 2 2).getD 1 ⟨none, none⟩).stoch_k
      = some (round2
          (if maxOf (fun b => b.high) (stochWindow [⟨1, 2, 1, 2, some 1⟩,
              ⟨1, 3, 1, 2, some 1⟩, ⟨1, 3, 1, 3, some 1⟩] 2 1)
              = minOf (fun b => b.low) (stochWindow [⟨1, 2, 1, 2, some 1⟩,
                ⟨1, 3, 1, 2, some 1⟩, ⟨1, 3, 1, 3, some 1⟩] 2 1) then 50
           else 100 * ((([⟨1, 2, 1, 2, some 1⟩, ⟨1, 3, 1, 2, some 1⟩,
                  ⟨1, 3, 1, 3, some 1⟩] : List Bar).getD 1 default).close
                - minOf (fun b => b.low) (stochWindow [⟨1, 2, 1, 2, some 1⟩,
                  ⟨1, 3, 1, 2, some 1⟩, ⟨1, 3, 1, 3, some 1⟩] 2 1))
              / (maxOf (fun b => b.high) (stochWindow [⟨1, 2, 1, 2, some 1⟩,
                  ⟨1, 3, 1, 2, some 1⟩, ⟨1, 3, 1, 3, some 1⟩] 2 1)
                - minOf (fun b => b.low) (stochWindow [⟨1, 2, 1, 2, some 1⟩,
                  ⟨1, 3, 1, 2, some 1⟩, ⟨1, 3, 1, 3, some 1⟩] 2 1))))
    ∧ ((stochastic_calculate [⟨1, 2, 1, 2, some 1⟩, ⟨1, 3, 1, 2, some 1⟩,
        ⟨1, 3, 1, 3, some 1⟩] 2 2).getD 0 ⟨none, none⟩).stoch_k = none :=
  ⟨(stoch_k_C3 [⟨1, 2, 1, 2, some 1⟩, ⟨1, 3, 1, 2, some 1⟩,
      ⟨1, 3, 1, 3, some 1⟩] 2 2 (by norm_num) (by norm_num) 1
      (by norm_num)).1 (by norm_num),
   (stoch_k_C3 [⟨1, 2, 1, 2, some 1⟩, ⟨1, 3, 1, 2, some 1⟩,
      ⟨1, 3, 1, 3, some 1⟩] 2 2 (by norm_num) (by norm_num) 0
      (by norm_num)).2 (by norm_num)⟩

lemma optComb_isSome (g : ℚ → ℚ → ℚ) (x y : Option ℚ) :
    (optComb g x y).isSome = (x.isSome && y.isSome) := by
  cases x <;> cases y <;> rfl

lemma optComb_none_right (g : ℚ → ℚ → ℚ) (x : Option ℚ) :
    optComb g x none = none := by
  cases x <;> rfl

lemma zipWith_optComb_replicate_right (g : ℚ → ℚ → ℚ) (l : List (Option ℚ))
    (m : Nat) :
    List.zipWith (optComb g) l (List.replicate m none)
      = List.replicate (min l.length m) none := by
  induction l generalizing m with
  | nil => simp
  | cons x l ih =>
    cases m with
    | zero => simp
    | succ m =>
      rw [List.replicate_succ, List.zipWith_cons_cons, optComb_none_right, ih]
      simp [List.replicate_succ, Nat.succ_min_succ]

lemma zipWith_optComb_replicate_left (g : ℚ → ℚ → ℚ) (m : Nat)
    (l : List (Option ℚ)) :
    List.zipWith (optComb g) (List.replicate m none) l
      = List.replicate (min m l.length) none := by
  induction l generalizing m with
  | nil => simp
  | cons x l ih =>
    cases m with
    | zero => simp
    | succ m =>
      rw [List.replicate_succ, List.zipWith_cons_cons, ih]
      show optComb g none x :: _ = _
      simp [optComb, List.replicate_succ, Nat.succ_min_succ]

lemma zipWith_optComb_map_some (g : ℚ → ℚ → ℚ) (u v : List ℚ) :
    List.zipWith (optComb g) (u.map some) (v.map some)
      = (List.zipWith g u v).map some := by
  induction u generalizing v with
  | nil => simp
  | cons x u ih =>
    cases v with
    | nil => simp
    | cons y v => simp [optComb, ih]

lemma zip_shape (g : ℚ → ℚ → ℚ) (a b : Nat) (u v : List ℚ)
    (hlen : a + u.length = b + v.length) :
    List.zipWith (optComb g) (List.replicate a none ++ u.map some)
        (List.replicate b none ++ v.map some)
      = List.replicate (max a b) none
        ++ (List.zipWith g (u.drop (b - a)) (v.drop (a - b))).map some := by
  rcases le_total a b with hab | hab
  · have hba : a - b = 0 := by omega
    have hsplit : List.replicate a (none : Option ℚ) ++ u.map some
        = (List.replicate a none ++ (u.take (b - a)).map some)
          ++ (u.drop (b - a)).map some := by
      rw [List.append_assoc, ← List.map_append, List.take_append_drop]
    rw [hsplit, List.zipWith_append _ _ _ _ _ (by
      rw [List.length_append, List.length_replicate, List.length_map,
        List.length_take, List.length_replicate]
      omega)]
    rw [zipWith_optComb_replicate_right, zipWith_optComb_map_some, hba,
      List.drop_zero]
    congr 2
    simp only [List.length_append, List.length_replicate, List.length_map,
      List.length_take]
    omega
  · have hba : b - a = 0 := by omega
    have hsplit : List.replicate b (none : Option ℚ) ++ v.map some
        = (List.replicate b none ++ (v.take (a - b)).map some)
          ++ (v.drop (a - b)).map some := by
      rw [List.append_assoc, ← List.map_append, List.take_append_drop]
    rw [hsplit, List.zipWith_append _ _ _ _ _ (by
      rw [List.length_append, List.length_replicate, List.length_map,
        List.length_take, List.length_replicate]
      omega)]
    rw [zipWith_optComb_replicate_left, zipWith_optComb_map_some, hba,
      List.drop_zero]
    congr 2
    simp only [List.length_append, List.length_replicate, List.length_map,
      List.length_take]
    omega

lemma getD_map_some_isSome (ws : List ℚ) (j : Nat) :
    ((ws.map some).getD j none).isSome = true ↔ j < ws.length := by
  rw [List.getD_eq_getElem?_getD, List.getElem?_map]
  by_cases h : j < ws.length
  · rw [List.getElem?_eq_getElem h]
    simp [h]
  · rw [List.getElem?_eq_none (by omega)]
    simp [h]

lemma shape_getD_isSome (a : Nat) (ws : List ℚ) (i : Nat) :
    ((List.replicate a none ++ ws.map some).getD i none).isSome = true
      ↔ (a ≤ i ∧ i < a + ws.length) := by
  rw [getD_replicate_none_append]
  by_cases h : i < a
  · simp [h]
  · rw [if_neg h, getD_map_some_isSome]
    omega

lemma filterMap_id_replicate_none (a : Nat) :
    (List.replicate a (none : Option ℚ)).filterMap id = [] := by
  induction a with
  | zero => rfl
  | succ a ih => simp [List.replicate_succ, List.filterMap_cons, ih]

lemma filterMap_id_map_some (zs : List ℚ) :
    (zs.map some).filterMap id = zs := by
  induction zs with
  | nil => rfl
  | cons z zs ih => simp [List.filterMap_cons, ih]

lemma filterMap_id_shape (a : Nat) (zs : List ℚ) :
    ((List.replicate a none ++ zs.map some).filterMap id) = zs := by
  rw [List.filterMap_append, filterMap_id_replicate_none,
    filterMap_id_map_some, List.nil_append]

lemma mapSignal_replicate_append (sev : List (Option ℚ)) (sp a : Nat)
    (l : List (Option ℚ)) (vi : Nat) :
    mapSignal sev sp (List.replicate a none ++ l) vi
      = List.replicate a none ++ mapSignal sev sp l vi := by
  induction a with
  | zero => rfl
  | succ a ih => simp [List.replicate_succ, mapSignal, ih]

lemma mapSignal_map_some (sev : List (Option ℚ)) (sp : Nat) (zs : List ℚ)
    (vi : Nat) :
    mapSignal sev sp (zs.map some) vi
      = (List.range zs.length).map (fun t => sigLookup sev sp (vi + t)) := by
  induction zs generalizing vi with
  | nil => rfl
  | cons z zs ih =>
    calc mapSignal sev sp ((z :: zs).map some) vi
        = sigLookup sev sp vi :: mapSignal sev sp (zs.map some) (vi + 1) := rfl
      _ = sigLookup sev sp vi
          :: (List.range zs.length).map (fun t => sigLookup sev sp (vi + 1 + t)) := by
          rw [ih]
      _ = (List.range (zs.length + 1)).map (fun t => sigLookup sev sp (vi + t)) := by
          rw [List.range_succ_eq_map, List.map_cons, List.map_map]
          refine congrArg₂ _ (by rw [Nat.add_zero]) ?_
          apply List.map_congr_left
          intro t _
          show sigLookup sev sp (vi + 1 + t) = sigLookup sev sp (vi + (t + 1))
          congr 1
          omega

lemma sigLookup_shape (ws : List ℚ) (sp : Nat) (hsp : 1 ≤ sp) (t : Nat) :
    ((sigLookup (List.replicate (sp - 1) none ++ ws.map some) sp t).isSome
        = true)
      ↔ (2 * (sp - 1) ≤ t ∧ t < 2 * (sp - 1) + ws.length) := by
  have hlen : (List.replicate (sp - 1) (none : Option ℚ)
      ++ ws.map some).length = (sp - 1) + ws.length := by
    simp
  simp only [sigLookup, hlen]
  split_ifs with h
  · obtain ⟨h0, hlt⟩ := h
    have htn : ((t : ℤ) - ((sp : ℤ) - 1)).toNat = t - (sp - 1) := by omega
    rw [htn, shape_getD_isSome]
    omega
  · constructor
    · intro hfalse
      simp at hfalse
    · intro hrange
      exfalso
      apply h
      constructor <;> push_cast <;> omega

lemma thresholdAvail_replicate_append_allSome (a : Nat)
    (l : List (Option α)) (h : ∀ o ∈ l, o.isSome = true) :
    ThresholdAvail (List.replicate a none ++ l) a := by
  intro i hi
  rw [List.length_append, List.length_replicate] at hi
  rw [getD_replicate_none_append]
  by_cases hia : i < a
  · simp [hia]
  · rw [if_neg hia]
    have hil : i - a < l.length := by omega
    rw [List.getD_eq_getElem?_getD, List.getElem?_eq_getElem hil]
    simp only [Option.getD_some]
    constructor
    · intro _; omega
    · intro _
      exact h _ (List.get_mem l (i - a) hil)

lemma adxLoop_fields (mult : ℚ) (prev : ℚ)
    (dxs dips dims : List (Option ℚ)) (hdx : ∀ o ∈ dxs, o.isSome = true)
    (hdip : ∀ o ∈ dips, o.isSome = true) (hdim : ∀ o ∈ dims, o.isSome = true) :
    ∀ r ∈ adxLoop mult prev dxs dips dims,
      r.adx.isSome = true ∧ r.di_plus.isSome = true
        ∧ r.di_minus.isSome = true := by
  induction dxs generalizing prev dips dims with
  | nil => intro r hr; simp [adxLoop] at hr
  | cons dx dxs ih =>
    intro r hr
    cases dips with
    | nil => simp [adxLoop] at hr
    | cons dip dips =>
      cases dims with
      | nil => simp [adxLoop] at hr
      | cons dim dims =>
        have hdx0 : dx.isSome = true := hdx dx (by simp)
        obtain ⟨d, rfl⟩ := Option.isSome_iff_exists.mp hdx0
        obtain ⟨d1, rfl⟩ := Option.isSome_iff_exists.mp (hdip dip (by simp))
        obtain ⟨d2, rfl⟩ := Option.isSome_iff_exists.mp (hdim dim (by simp))
        simp only [adxLoop, List.mem_cons] at hr
        rcases hr with rfl | hr
        · refine ⟨rfl, rfl, rfl⟩
        · exact ih _ _ _ (fun o ho => hdx o (by simp [ho]))
            (fun o ho => hdip o (by simp [ho]))
            (fun o ho => hdim o (by simp [ho])) r hr

lemma filterMap_ite_range_length (c : Nat) (g : Nat → ℚ) (m : Nat) :
    ((List.range m).filterMap
        (fun j => if j < c then none else some (g j))).length = m - c := by
  induction m with
  | zero => simp
  | succ m ih =>
    rw [List.range_succ, List.filterMap_append, List.length_append, ih]
    by_cases h : m < c
    · simp [h]; omega
    · simp [h]; omega

lemma seqOpt_get? (l : List (Option α)) (ys : List α)
    (h : seqOpt l = some ys) (i : Nat) :
    l.get? i = (ys.get? i).map some := by
  induction l generalizing ys i with
  | nil =>
    simp only [seqOpt] at h
    injection h with h
    rw [h.symm]
    simp
  | cons o rest ih =>
    cases o with
    | none => simp [seqOpt] at h
    | some x =>
      simp only [seqOpt] at h
      cases hrest : seqOpt rest with
      | none => rw [hrest] at h; simp at h
      | some xs =>
        rw [hrest] at h
        simp only [Option.some_inj] at h
        rw [h.symm]
        cases i with
        | zero => rfl
        | succ i => simpa using ih xs hrest i

lemma map_some_comp (f : ℚ → ℚ) (l : List ℚ) :
    l.map (fun v => some (f v)) = (l.map f).map some := by
  rw [List.map_map]
  rfl

lemma sma_mono (data : List Bar) (p : Nat) :
    MonoAvail (sma_calculate data p) := by
  simp only [sma_calculate]
  split_ifs with h
  · rw [map_const_none]
    exact (thresholdAvail_replicate _).monoAvail
  · apply ThresholdAvail.monoAvail (a := p - 1)
    apply thresholdAvail_rangeMap
    intro i hi
    by_cases h2 : i < p - 1
    · rw [if_pos h2]; simp; omega
    · rw [if_neg h2]; simp; omega

lemma ema_mono (data : List Bar) (p : Nat) :
    MonoAvail (ema_calculate data p) := by
  simp only [ema_calculate]
  split_ifs with h
  · rw [map_const_none]
    exact (thresholdAvail_replicate _).monoAvail
  · rw [map_some_comp]
    exact (thresholdAvail_shape _ _).monoAvail

lemma rsi_mono (data : List Bar) (p : Nat) :
    MonoAvail (rsi_calculate data p) := by
  simp only [rsi_calculate]
  split_ifs with h
  · rw [map_const_none]
    exact (thresholdAvail_replicate _).monoAvail
  · rw [map_some_comp]
    exact (thresholdAvail_shape _ _).monoAvail

lemma atr_mono (data : List Bar) (p : Nat) :
    MonoAvail (atr_calculate data p) := by
  simp only [atr_calculate]
  split_ifs with h
  · rw [map_const_none]
    exact (thresholdAvail_replicate _).monoAvail
  · rw [map_some_comp]
    exact (thresholdAvail_shape _ _).monoAvail

lemma stochValid_length (data : List Bar) (k i : Nat) :
    ((stochKUpTo data k i).filterMap id).length = (i + 1) - (k - 1) := by
  rw [stochKUpTo, List.filterMap_map]
  exact filterMap_ite_range_length (k - 1) (stochKVal data k) (i + 1)

lemma stoch_mono (data : List Bar) (k d : Nat) (hk : 1 ≤ k) (hd : 1 ≤ d) :
    MonoAvail ((stochastic_calculate data k d).map (fun r => r.stoch_k))
    ∧ MonoAvail ((stochastic_calculate data k d).map (fun r => r.stoch_d)) := by
  simp only [stochastic_calculate]
  split_ifs with h
  · rw [List.map_map, List.map_map]
    constructor <;>
      exact (map_constant data _ ▸ (thresholdAvail_replicate _).monoAvail)
  · rw [List.map_map, List.map_map]
    constructor
    · apply ThresholdAvail.monoAvail (a := k - 1)
      apply thresholdAvail_rangeMap
      intro i hi
      by_cases h2 : i < k - 1
      · simp only [Function.comp, if_pos h2]
        simp; omega
      · simp only [Function.comp, if_neg h2]
        split_ifs <;> simp <;> omega
    · apply ThresholdAvail.monoAvail (a := k + d - 2)
      apply thresholdAvail_rangeMap
      intro i hi
      by_cases h2 : i < k - 1
      · simp only [Function.comp, if_pos h2]
        simp; omega
      · simp only [Function.comp, if_neg h2]
        rw [stochValid_length]
        by_cases h3 : (i + 1) - (k - 1) < d
        · rw [if_pos h3]; simp; omega
        · rw [if_neg h3]; simp; omega

lemma obvLoop_avail (bars : List Bar) :
    ∀ (total : ℚ) (prev : Bar) (i : Nat) (b : Bar), bars.get? i = some b →
      ((((obvLoop total prev bars).getD i none).isSome = true)
        ↔ b.volume.isSome = true) := by
  induction bars with
  | nil => intro total prev i b hb; simp at hb
  | cons c rest ih =>
    intro total prev i b hb
    cases i with
    | zero =>
      simp only [List.get?_eq_getElem?, List.getElem?_cons_zero,
        Option.some_inj] at hb
      subst hb
      cases hv : c.volume with
      | none => simp [obvLoop, hv]
      | some v => simp [obvLoop, hv]
    | succ i =>
      have hbr : rest.get? i = some b := by simpa using hb
      cases hv : c.volume with
      | none =>
        simp only [obvLoop, hv, List.getD_cons_succ]
        exact ih total c i b hbr
      | some v =>
        simp only [obvLoop, hv, List.getD_cons_succ]
        exact ih _ c i b hbr

lemma obv_avail (data : List Bar) (i : Nat) (b : Bar)
    (hb : data.get? i = some b) :
    (((obv_calculate data).getD i none).isSome = true)
      ↔ b.volume.isSome = true := by
  cases data with
  | nil => simp at hb
  | cons c rest =>
    cases i with
    | zero =>
      simp only [List.get?_eq_getElem?, List.getElem?_cons_zero,
        Option.some_inj] at hb
      subst hb
      cases hv : c.volume with
      | none => simp [obv_calculate, hv]
      | some v => simp [obv_calculate, hv]
    | succ i =>
      have hbr : rest.get? i = some b := by simpa using hb
      cases hv : c.volume with
      | none =>
        simp only [obv_calculate, hv, List.getD_cons_succ]
        exact obvLoop_avail rest 0 c i b hbr
      | some v =>
        simp only [obv_calculate, hv, List.getD_cons_succ]
        exact obvLoop_avail rest v c i b hbr

lemma vwapLoop_avail (bars : List Bar) :
    ∀ (cpv cv : ℚ) (i : Nat) (b : Bar), bars.get? i = some b →
      ((((vwapLoop cpv cv bars).getD i none).isSome = true)
        ↔ (b.volume ≠ none ∧ b.volume ≠ some 0)) := by
  induction bars with
  | nil => intro cpv cv i b hb; simp at hb
  | cons c rest ih =>
    intro cpv cv i b hb
    cases i with
    | zero =>
      simp only [List.get?_eq_getElem?, List.getElem?_cons_zero,
        Option.some_inj] at hb
      subst hb
      cases hv : c.volume with
      | none => simp [vwapLoop, hv]
      | some v =>
        by_cases hv0 : v = 0
        · subst hv0; simp [vwapLoop, hv]
        · simp [vwapLoop, hv, hv0]
    | succ i =>
      have hbr : rest.get? i = some b := by simpa using hb
      cases hv : c.volume with
      | none =>
        simp only [vwapLoop, hv, List.getD_cons_succ]
        exact ih cpv cv i b hbr
      | some v =>
        by_cases hv0 : v = 0
        · subst hv0
          simp only [vwapLoop, hv, if_pos rfl, List.getD_cons_succ]
          exact ih cpv cv i b hbr
        · simp only [vwapLoop, hv, if_neg hv0, List.getD_cons_succ]
          exact ih _ _ i b hbr

lemma vwap_avail (data : List Bar) (i : Nat) (b : Bar)
    (hb : data.get? i = some b) :
    (((vwap_calculate data).getD i none).isSome = true)
      ↔ (b.volume ≠ none ∧ b.volume ≠ some 0) :=
  vwapLoop_avail data 0 0 i b hb

lemma bollinger_mono (sqrtQ : ℚ → ℚ) (data : List Bar) (p : Nat) (mult : ℚ) :
    ∀ r, bollinger_calculate sqrtQ data p mult = some r →
      MonoAvail (r.map (fun x => x.bb_upper))
      ∧ MonoAvail (r.map (fun x => x.bb_middle))
      ∧ MonoAvail (r.map (fun x => x.bb_lower)) := by
  intro r hr
  simp only [bollinger_calculate] at hr
  split_ifs at hr with h
  · injection hr with hr
    rw [map_constant] at hr
    subst hr
    refine ⟨?_, ?_, ?_⟩ <;>
      · rw [List.map_replicate]
        exact (thresholdAvail_replicate _).monoAvail
  · have hlen_r : r.length = data.length := by
      have hl := seqOpt_length _ _ hr
      rw [hl, List.length_map, List.length_range, closesOf_length]
    have hkey : ∀ i, i < r.length →
        ∃ rec, r.get? i = some rec
          ∧ (rec.bb_upper.isSome = true ↔ p - 1 ≤ i)
          ∧ (rec.bb_middle.isSome = true ↔ p - 1 ≤ i)
          ∧ (rec.bb_lower.isSome = true ↔ p - 1 ≤ i) := by
      intro i hi
      have hget := seqOpt_get? _ _ hr i
      rw [List.get?_eq_getElem?, List.getElem?_map,
        List.getElem?_range (by rw [closesOf_length]; omega)] at hget
      cases hri : r.get? i with
      | none => rw [hri] at hget; simp at hget
      | some rec =>
        rw [hri] at hget
        simp only [Option.map_some', Option.some_inj] at hget
        refine ⟨rec, rfl, ?_⟩
        by_cases hip : i < p - 1
        · rw [if_pos hip] at hget
          injection hget with hget
          rw [← hget]
          simp
          omega
        · rw [if_neg hip] at hget
          cases hs : sampleStdev sqrtQ
              (((closesOf data).drop (i + 1 - p)).take p) with
          | none => rw [hs] at hget; simp at hget
          | some std =>
            rw [hs] at hget
            simp only [Option.map_some', Option.some_inj] at hget
            rw [← hget]
            simp
            omega
    refine ⟨?_, ?_, ?_⟩
    · apply ThresholdAvail.monoAvail (a := p - 1)
      intro i hi
      rw [List.length_map] at hi
      obtain ⟨rec, hrec, h1, h2, h3⟩ := hkey i hi
      rw [List.getD_eq_getElem?_getD, List.getElem?_map,
        ← List.get?_eq_getElem?, hrec]
      exact h1
    · apply ThresholdAvail.monoAvail (a := p - 1)
      intro i hi
      rw [List.length_map] at hi
      obtain ⟨rec, hrec, h1, h2, h3⟩ := hkey i hi
      rw [List.getD_eq_getElem?_getD, List.getElem?_map,
        ← List.get?_eq_getElem?, hrec]
      exact h2
    · apply ThresholdAvail.monoAvail (a := p - 1)
      intro i hi
      rw [List.length_map] at hi
      obtain ⟨rec, hrec, h1, h2, h3⟩ := hkey i hi
      rw [List.getD_eq_getElem?_getD, List.getElem?_map,
        ← List.get?_eq_getElem?, hrec]
      exact h3

lemma isSome_option_map (f : ℚ → ℚ) (x : Option ℚ) :
    (x.map f).isSome = x.isSome := by
  cases x <;> rfl

lemma macd_field_thresh (ml sl : List (Option ℚ)) (am asig : Nat)
    (hml : ThresholdAvail ml am) (hsl : ThresholdAvail sl asig)
    (hlen : sl.length = ml.length) :
    ThresholdAvail ((List.zipWith (fun mv sv =>
        (⟨mv.map round8, sv.map round8,
          optComb (fun a b => round8 (a - b)) mv sv⟩ : MacdRec)) ml sl).map
        (fun r => r.macd)) am
    ∧ ThresholdAvail ((List.zipWith (fun mv sv =>
        (⟨mv.map round8, sv.map round8,
          optComb (fun a b => round8 (a - b)) mv sv⟩ : MacdRec)) ml sl).map
        (fun r => r.signal)) asig
    ∧ ThresholdAvail ((List.zipWith (fun mv sv =>
        (⟨mv.map round8, sv.map round8,
          optComb (fun a b => round8 (a - b)) mv sv⟩ : MacdRec)) ml sl).map
        (fun r => r.histogram)) (max am asig) := by
  have hkey : ∀ i, i < ml.length → i < sl.length →
      ∀ proj : MacdRec → Option ℚ,
      ((List.zipWith (fun mv sv =>
          (⟨mv.map round8, sv.map round8,
            optComb (fun a b => round8 (a - b)) mv sv⟩ : MacdRec)) ml sl).map
          proj).getD i none
        = proj ⟨(ml.getD i none).map round8, (sl.getD i none).map round8,
            optComb (fun a b => round8 (a - b)) (ml.getD i none)
              (sl.getD i none)⟩ := by
    intro i hi1 hi2 proj
    rw [List.getD_eq_getElem?_getD, List.getElem?_map, List.getElem?_zipWith,
      List.getElem?_eq_getElem hi1, List.getElem?_eq_getElem hi2]
    rw [List.getD_eq_getElem?_getD, List.getD_eq_getElem?_getD,
      List.getElem?_eq_getElem hi1, List.getElem?_eq_getElem hi2]
    rfl
  have hlength : ∀ proj : MacdRec → Option ℚ,
      ((List.zipWith (fun mv sv =>
          (⟨mv.map round8, sv.map round8,
            optComb (fun a b => round8 (a - b)) mv sv⟩ : MacdRec)) ml sl).map
          proj).length = min ml.length sl.length := by
    intro proj
    rw [List.length_map, List.length_zipWith]
  refine ⟨?_, ?_, ?_⟩
  · intro i hi
    rw [hlength] at hi
    rw [hkey i (by omega) (by omega)]
    show ((ml.getD i none).map round8).isSome = true ↔ am ≤ i
    rw [isSome_option_map]
    exact hml i (by omega)
  · intro i hi
    rw [hlength] at hi
    rw [hkey i (by omega) (by omega)]
    show ((sl.getD i none).map round8).isSome = true ↔ asig ≤ i
    rw [isSome_option_map]
    exact hsl i (by omega)
  · intro i hi
    rw [hlength] at hi
    rw [hkey i (by omega) (by omega)]
    show (optComb (fun a b => round8 (a - b)) (ml.getD i none)
        (sl.getD i none)).isSome = true ↔ max am asig ≤ i
    rw [optComb_isSome]
    have e1 := hml i (by omega)
    have e2 := hsl i (by omega)
    rw [Bool.and_eq_true, e1, e2, max_le_iff]

lemma macd_mono (data : List Bar) (f s sp : Nat) (hf : 1 ≤ f) (hs : 1 ≤ s)
    (hsp : 1 ≤ sp) :
    MonoAvail ((macd_calculate data f s sp).map (fun r => r.macd))
    ∧ MonoAvail ((macd_calculate data f s sp).map (fun r => r.signal))
    ∧ MonoAvail ((macd_calculate data f s sp).map (fun r => r.histogram)) := by
  by_cases h : data.length < s + sp
  · have hcalc : macd_calculate data f s sp
        = List.replicate data.length ⟨none, none, none⟩ := by
      simp only [macd_calculate]
      rw [if_pos h, map_constant]
    rw [hcalc]
    refine ⟨?_, ?_, ?_⟩ <;>
      · rw [List.map_replicate]
        exact (thresholdAvail_replicate _).monoAvail
  · obtain ⟨a, zs, hshape, halen⟩ :
        ∃ (a : Nat) (zs : List ℚ),
          List.zipWith optSub (macdEma (closesOf data) f)
              (macdEma (closesOf data) s)
            = List.replicate a none ++ zs.map some
          ∧ a + zs.length = data.length := by
      by_cases hcf : (closesOf data).length < f
      · refine ⟨data.length, [], ?_, by simp⟩
        rw [show macdEma (closesOf data) f
            = List.replicate (closesOf data).length none from by
          simp only [macdEma]; rw [if_pos hcf]]
        simp only [optSub]
        rw [zipWith_optComb_replicate_left, macdEma_length _ _ hs,
          closesOf_length]
        simp [closesOf_length]
      · by_cases hcs : (closesOf data).length < s
        · refine ⟨data.length, [], ?_, by simp⟩
          rw [show macdEma (closesOf data) s
              = List.replicate (closesOf data).length none from by
            simp only [macdEma]; rw [if_pos hcs]]
          simp only [optSub]
          rw [zipWith_optComb_replicate_right, macdEma_length _ _ hf,
            closesOf_length]
          simp [closesOf_length]
        · refine ⟨max (f - 1) (s - 1),
            List.zipWith (fun x y => x - y)
              ((emaSeries (closesOf data) f).drop ((s - 1) - (f - 1)))
              ((emaSeries (closesOf data) s).drop ((f - 1) - (s - 1))),
            ?_, ?_⟩
          · rw [show macdEma (closesOf data) f
                = List.replicate (f - 1) none
                  ++ (emaSeries (closesOf data) f).map some from by
              simp only [macdEma]; rw [if_neg hcf]]
            rw [show macdEma (closesOf data) s
                = List.replicate (s - 1) none
                  ++ (emaSeries (closesOf data) s).map some from by
              simp only [macdEma]; rw [if_neg hcs]]
            simp only [optSub]
            exact zip_shape _ _ _ _ _
              (by rw [emaSeries_length, emaSeries_length]; omega)
          · rw [List.length_zipWith, List.length_drop, List.length_drop,
              emaSeries_length, emaSeries_length, closesOf_length]
            rw [closesOf_length] at hcf hcs
            omega
    have hcalc : macd_calculate data f s sp
        = List.zipWith (fun mv sv =>
            (⟨mv.map round8, sv.map round8,
              optComb (fun a b => round8 (a - b)) mv sv⟩ : MacdRec))
          (List.zipWith optSub (macdEma (closesOf data) f)
            (macdEma (closesOf data) s))
          (if ((List.zipWith optSub (macdEma (closesOf data) f)
              (macdEma (closesOf data) s)).filterMap id).length < sp then
            List.replicate (List.zipWith optSub (macdEma (closesOf data) f)
              (macdEma (closesOf data) s)).length none
          else
            mapSignal (macdEma ((List.zipWith optSub
                (macdEma (closesOf data) f)
                (macdEma (closesOf data) s)).filterMap id) sp) sp
              (List.zipWith optSub (macdEma (closesOf data) f)
                (macdEma (closesOf data) s)) 0) := by
      simp only [macd_calculate]
      rw [if_neg h]
    rw [hshape, filterMap_id_shape] at hcalc
    by_cases hv : zs.length < sp
    · rw [if_pos hv] at hcalc
      rw [hcalc]
      have hml := thresholdAvail_shape a zs
      have hsl : ThresholdAvail
          (List.replicate (List.replicate a (none : Option ℚ)
            ++ zs.map some).length (none : Option ℚ))
          (List.replicate a (none : Option ℚ) ++ zs.map some).length :=
        thresholdAvail_replicate _
      obtain ⟨t1, t2, t3⟩ := macd_field_thresh _ _ _ _ hml hsl (by simp)
      exact ⟨t1.monoAvail, t2.monoAvail, t3.monoAvail⟩
    · rw [if_neg hv] at hcalc
      have hsev : macdEma zs sp
          = List.replicate (sp - 1) none ++ (emaSeries zs sp).map some := by
        simp only [macdEma]
        rw [if_neg (by omega)]
      have hslT : ThresholdAvail
          (mapSignal (macdEma zs sp) sp
            (List.replicate a none ++ zs.map some) 0) (a + 2 * (sp - 1)) := by
        rw [mapSignal_replicate_append, mapSignal_map_some]
        intro i hi
        rw [List.length_append, List.length_replicate, List.length_map,
          List.length_range] at hi
        rw [getD_replicate_none_append]
        by_cases hia : i < a
        · simp [hia]
          omega
        · rw [if_neg hia, List.getD_eq_getElem?_getD, List.getElem?_map,
            List.getElem?_range (by omega)]
          simp only [Option.map_some', Option.getD_some, Nat.zero_add]
          rw [hsev, sigLookup_shape _ _ hsp, emaSeries_length]
          omega
      have hml := thresholdAvail_shape a zs
      rw [hcalc]
      obtain ⟨t1, t2, t3⟩ := macd_field_thresh _ _ _ _ hml hslT
        (mapSignal_length _ _ _ _)
      exact ⟨t1.monoAvail, t2.monoAvail, t3.monoAvail⟩

lemma comb_shape_same (g : ℚ → ℚ → ℚ) (a : Nat) (u v : List ℚ)
    (huv : u.length = v.length) :
    List.zipWith (optComb g) (List.replicate a none ++ u.map some)
        (List.replicate a none ++ v.map some)
      = List.replicate a none ++ (List.zipWith g u v).map some := by
  rw [zip_shape _ _ _ _ _ (by omega)]
  simp only [Nat.sub_self, List.drop_zero, max_self]

lemma adx_mono (data : List Bar) (p : Nat) (hp : 1 ≤ p) :
    MonoAvail ((adx_calculate data p).map (fun r => r.adx))
    ∧ MonoAvail ((adx_calculate data p).map (fun r => r.di_plus))
    ∧ MonoAvail ((adx_calculate data p).map (fun r => r.di_minus)) := by
  by_cases h : data.length < p + 1
  · have hcalc : adx_calculate data p
        = List.replicate data.length ⟨none, none, none⟩ := by
      simp only [adx_calculate]
      rw [if_pos h, map_constant]
    rw [hcalc]
    refine ⟨?_, ?_, ?_⟩ <;>
      · rw [List.map_replicate]
        exact (thresholdAvail_replicate _).monoAvail
  · have hdip : adxDip data p
        = List.replicate (p - 1) none
          ++ (List.zipWith (fun s d => if s = 0 then 0 else d / s * 100)
              (((trueRanges data).take p).sum
                :: wilderVals p ((trueRanges data).take p).sum
                  ((trueRanges data).drop p))
              (((plusDMs data).take p).sum
                :: wilderVals p ((plusDMs data).take p).sum
                  ((plusDMs data).drop p))).map some := by
      simp only [adxDip, diSeries, wilderSmooth]
      exact comb_shape_same _ _ _ _
        (by simp [wilderVals_length, trueRanges_length, plusDMs_length])
    have hdim : adxDim data p
        = List.replicate (p - 1) none
          ++ (List.zipWith (fun s d => if s = 0 then 0 else d / s * 100)
              (((trueRanges data).take p).sum
                :: wilderVals p ((trueRanges data).take p).sum
                  ((trueRanges data).drop p))
              (((minusDMs data).take p).sum
                :: wilderVals p ((minusDMs data).take p).sum
                  ((minusDMs data).drop p))).map some := by
      simp only [adxDim, diSeries, wilderSmooth]
      exact comb_shape_same _ _ _ _
        (by simp [wilderVals_length, trueRanges_length, minusDMs_length])
    obtain ⟨udip, hdipS, hdipLen⟩ :
        ∃ u : List ℚ, adxDip data p = List.replicate (p - 1) none
          ++ u.map some ∧ u.length = 1 + (data.length - p) :=
      ⟨_, hdip, by simp [wilderVals_length, trueRanges_length, plusDMs_length]; omega⟩
    obtain ⟨udim, hdimS, hdimLen⟩ :
        ∃ u : List ℚ, adxDim data p = List.replicate (p - 1) none
          ++ u.map some ∧ u.length = 1 + (data.length - p) :=
      ⟨_, hdim, by simp [wilderVals_length, trueRanges_length, minusDMs_length]; omega⟩
    obtain ⟨udx, hdxS, hdxLen⟩ :
        ∃ u : List ℚ, adxDx data p = List.replicate (p - 1) none
          ++ u.map some ∧ u.length = 1 + (data.length - p) := by
      refine ⟨List.zipWith
        (fun a b => if a + b = 0 then 0 else |a - b| / (a + b) * 100)
        udip udim, ?_, ?_⟩
      · rw [adxDx, hdipS, hdimS, dxSeries]
        exact comb_shape_same _ _ _ _ (by omega)
      · rw [List.length_zipWith]
        omega
    have hdrop : ∀ (X : List (Option ℚ)),
        (List.replicate (p - 1) (none : Option ℚ) ++ X).drop p = X.drop 1 := by
      intro X
      have h1 : (List.replicate (p - 1) (none : Option ℚ)).length + 1 = p := by
        simp; omega
      calc (List.replicate (p - 1) (none : Option ℚ) ++ X).drop p
          = (List.replicate (p - 1) (none : Option ℚ) ++ X).drop
              ((List.replicate (p - 1) (none : Option ℚ)).length + 1) := by
            rw [h1]
        _ = X.drop 1 := List.drop_append 1
    have hcalc : adx_calculate data p
        = if ((((adxDx data p).drop (p - 1)).take p).filterMap id).length < p
          then data.map (fun _ => ⟨none, none, none⟩)
          else
            (List.replicate (p - 1) (⟨none, none, none⟩ : AdxRec)) ++
              ⟨some (round2 (((((adxDx data p).drop (p - 1)).take p).filterMap
                    id).sum / p)),
                ((adxDip data p).getD (p - 1) none).map round2,
                ((adxDim data p).getD (p - 1) none).map round2⟩ ::
              adxLoop (2 / ((p : ℚ) + 1))
                (((((adxDx data p).drop (p - 1)).take p).filterMap id).sum / p)
                ((adxDx data p).drop p) ((adxDip data p).drop p)
                ((adxDim data p).drop p) := by
      simp only [adx_calculate]
      rw [if_neg h]
    by_cases hw :
        ((((adxDx data p).drop (p - 1)).take p).filterMap id).length < p
    · rw [hcalc, if_pos hw, map_constant]
      refine ⟨?_, ?_, ?_⟩ <;>
        · rw [List.map_replicate]
          exact (thresholdAvail_replicate _).monoAvail
    · rw [hcalc, if_neg hw]
      have hdip_seed :
          (((adxDip data p).getD (p - 1) none).map round2).isSome = true := by
        rw [hdipS, getD_replicate_none_append, if_neg (by omega),
          Nat.sub_self, isSome_option_map]
        rw [getD_map_some_isSome]
        omega
      have hdim_seed :
          (((adxDim data p).getD (p - 1) none).map round2).isSome = true := by
        rw [hdimS, getD_replicate_none_append, if_neg (by omega),
          Nat.sub_self, isSome_option_map]
        rw [getD_map_some_isSome]
        omega
      have hloop := adxLoop_fields (2 / ((p : ℚ) + 1))
        (((((adxDx data p).drop (p - 1)).take p).filterMap id).sum / p)
        ((adxDx data p).drop p) ((adxDip data p).drop p)
        ((adxDim data p).drop p)
        (by
          intro o ho
          rw [hdxS, hdrop] at ho
          obtain ⟨x, _, rfl⟩ :=
            List.mem_map.mp (List.mem_of_mem_drop ho)
          rfl)
        (by
          intro o ho
          rw [hdipS, hdrop] at ho
          obtain ⟨x, _, rfl⟩ :=
            List.mem_map.mp (List.mem_of_mem_drop ho)
          rfl)
        (by
          intro o ho
          rw [hdimS, hdrop] at ho
          obtain ⟨x, _, rfl⟩ :=
            List.mem_map.mp (List.mem_of_mem_drop ho)
          rfl)
      refine ⟨?_, ?_, ?_⟩
      · rw [List.map_append, List.map_replicate, List.map_cons]
        apply ThresholdAvail.monoAvail
        apply thresholdAvail_replicate_append_allSome
        intro o ho
        rcases List.mem_cons.mp ho with rfl | ho
        · rfl
        · obtain ⟨r, hr, rfl⟩ := List.mem_map.mp ho
          exact (hloop r hr).1
      · rw [List.map_append, List.map_replicate, List.map_cons]
        apply ThresholdAvail.monoAvail
        apply thresholdAvail_replicate_append_allSome
        intro o ho
        rcases List.mem_cons.mp ho with rfl | ho
        · exact hdip_seed
        · obtain ⟨r, hr, rfl⟩ := List.mem_map.mp ho
          exact (hloop r hr).2.1
      · rw [List.map_append, List.map_replicate, List.map_cons]
        apply ThresholdAvail.monoAvail
        apply thresholdAvail_replicate_append_allSome
        intro o ho
        rcases List.mem_cons.mp ho with rfl | ho
        · exact hdim_seed
        · obtain ⟨r, hr, rfl⟩ := List.mem_map.mp ho
          exact (hloop r hr).2.2

/-- C6: monotone availability — for every indicator except OBV and VWAP,
a field available at index `i` stays available at every later index; for OBV
a record is unavailable exactly at bars with missing volume, and for VWAP
exactly at bars with missing or zero volume. -/
theorem monotone_availability_C6 (sqrtQ : ℚ → ℚ) (data : List Bar)
    (p f s sp k d : Nat) (mult : ℚ) (hp : 1 ≤ p) (hf : 1 ≤ f) (hs : 1 ≤ s)
    (hsp : 1 ≤ sp) (hk : 1 ≤ k) (hd : 1 ≤ d) :
    MonoAvail (sma_calculate data p)
    ∧ MonoAvail (ema_calculate data p)
    ∧ MonoAvail (rsi_calculate data p)
    ∧ MonoAvail (atr_calculate data p)
    ∧ MonoAvail ((macd_calculate data f s sp).map (fun r => r.macd))
    ∧ MonoAvail ((macd_calculate data f s sp).map (fun r => r.signal))
    ∧ MonoAvail ((macd_calculate data f s sp).map (fun r => r.histogram))
    ∧ MonoAvail ((stochastic_calculate data k d).map (fun r => r.stoch_k))
    ∧ MonoAvail ((stochastic_calculate data k d).map (fun r => r.stoch_d))
    ∧ MonoAvail ((adx_calculate data p).map (fun r => r.adx))
    ∧ MonoAvail ((adx_calculate data p).map (fun r => r.di_plus))
    ∧ MonoAvail ((adx_calculate data p).map (fun r => r.di_minus))
    ∧ (∀ r, bollinger_calculate sqrtQ data p mult = some r →
        MonoAvail (r.map (fun x => x.bb_upper))
        ∧ MonoAvail (r.map (fun x => x.bb_middle))
        ∧ MonoAvail (r.map (fun x => x.bb_lower)))
    ∧ (∀ i b, data.get? i = some b →
        (((obv_calculate data).getD i none).isSome = true
          ↔ b.volume.isSome = true))
    ∧ (∀ i b, data.get? i = some b →
        (((vwap_calculate data).getD i none).isSome = true
          ↔ (b.volume ≠ none ∧ b.volume ≠ some 0))) := by
  obtain ⟨m1, m2, m3⟩ := macd_mono data f s sp hf hs hsp
  obtain ⟨t1, t2⟩ := stoch_mono data k d hk hd
  obtain ⟨a1, a2, a3⟩ := adx_mono data p hp
  exact ⟨sma_mono data p, ema_mono data p, rsi_mono data p, atr_mono data p,
    m1, m2, m3, t1, t2, a1, a2, a3, bollinger_mono sqrtQ data p mult,
    obv_avail data, vwap_avail data⟩

theorem monotone_availability_C6_witness :
    (((obv_calculate [⟨1, 1, 1, 1, some 1⟩]).getD 0 none).isSome = true
      ↔ ((⟨1, 1, 1, 1, some 1⟩ : Bar)).volume.isSome = true)
    ∧ (((vwap_calculate [⟨1, 1, 1, 1, some 1⟩]).getD 0 none).isSome = true
      ↔ ((⟨1, 1, 1, 1, some 1⟩ : Bar).volume ≠ none
          ∧ (⟨1, 1, 1, 1, some 1⟩ : Bar).volume ≠ some 0)) := by
  have h := monotone_availability_C6 id [⟨1, 1, 1, 1, some 1⟩] 1 1 1 1 1 1 2
    (le_refl 1) (le_refl 1) (le_refl 1) (le_refl 1) (le_refl 1) (le_refl 1)
  exact ⟨h.2.2.2.2.2.2.2.2.2.2.2.2.2.1 0 ⟨1, 1, 1, 1, some 1⟩ rfl,
    h.2.2.2.2.2.2.2.2.2.2.2.2.2.2 0 ⟨1, 1, 1, 1, some 1⟩ rfl⟩
